import Mathlib

/-!
# DSF to WAV converter: embedding of `DsdToWavConverter.cpp`

Bytes are natural numbers below 256, C++ `int` values are integers wrapped to
32 bits, `int16_t` samples are integers wrapped to 16 bits.  Files live in a
`World` that also records which files were opened and which reads were issued.
-/

namespace DSDConverter

/-! ## Machine integers and their object representation -/

/-- Value kept by a 32-bit two's complement `int` after an arithmetic result `x`. -/
def wrapInt (x : Int) : Int := (x + 2147483648) % 4294967296 - 2147483648

/-- Value kept by an `int16_t` after converting the `int` value `x` to it. -/
def wrapInt16 (x : Int) : Int := (x + 32768) % 65536 - 32768

/-- The four bytes of an `int` object in memory, lowest address first
(little-endian host, 32-bit `int`). -/
def intBytes (v : Int) : List Nat :=
  let u := (v % 4294967296).toNat
  [u % 256, u / 256 % 256, u / 65536 % 256, u / 16777216 % 256]

/-- The two bytes of an `int16_t` object in memory, lowest address first. -/
def int16Bytes (v : Int) : List Nat :=
  let u := (v % 65536).toNat
  [u % 256, u / 256 % 256]

/-- Bitwise OR of two `int` values, computed on their 32-bit patterns. -/
def intOr (a b : Int) : Int :=
  wrapInt (((a % 4294967296).toNat ||| (b % 4294967296).toNat : Nat) : Int)

/-- The storage of a `std::vector<int16_t>` seen as bytes (`pcmData.data()`). -/
def pcmBytes : List Int → List Nat
  | [] => []
  | s :: rest => int16Bytes s ++ pcmBytes rest

/-! ## The outside world -/

/-- I/O operations that the converter issues, in the order they happen. -/
inductive IOEvent where
  | openInput (path : String) (opened : Bool)
  | readInput (requested got : Nat)
  | openOutput (path : String) (opened : Bool)
  deriving DecidableEq, Repr

/-- File system and I/O history.  `files p` is the content of the readable file
at `p` (or `none`), `writable p` tells whether an `std::ofstream` on `p` opens. -/
structure World where
  files : String → Option (List Nat)
  writable : String → Bool
  log : List IOEvent

/-- Append one event to the history. -/
def World.record (w : World) (e : IOEvent) : World :=
  { w with log := w.log ++ [e] }

/-- Replace the content of the file at `path`. -/
def World.store (w : World) (path : String) (bytes : List Nat) : World :=
  { w with files := fun p => if p = path then some bytes else w.files p }

/-- An open `std::ifstream`: the file content, the get position and whether
`failbit` is set. -/
structure IFStream where
  data : List Nat
  pos : Nat
  fail : Bool
  deriving DecidableEq, Repr

/-- Unformatted `istream::read(buf, n)`: returns the bytes extracted (their
number is `gcount()`); extracting fewer than `n` sets `failbit`, and a stream
whose `failbit` is already set extracts nothing. -/
def IFStream.read (s : IFStream) (n : Nat) : List Nat × IFStream :=
  if s.fail then ([], s)
  else
    let got := (s.data.drop s.pos).take n
    if got.length = n then (got, { s with pos := s.pos + n })
    else (got, { s with pos := s.pos + got.length, fail := true })

/-- The call `file.read(buf, n)` as an I/O step: the read is recorded. -/
def ifstreamRead (w : World) (file : IFStream) (n : Nat) : List Nat × IFStream × World :=
  let r := file.read n
  (r.1, r.2, w.record (IOEvent.readInput n r.1.length))

/-- The call `file.write(ptr, n)` on an `std::ofstream` that holds the bytes `file`
in its put area, given by the content the file has once the stream is closed.
`mem` is the readable memory starting at `ptr`.  A non-positive count inserts
nothing.  A count inside `mem` inserts its `n` bytes after `file` (for a write
that stays in the put area this is also the put area afterwards, which is how
`writeWAVHeader` chains its writes).  A count past `mem` reads outside the
readable memory, with the two outcomes of libstdc++: below 1024 bytes the data
are copied into the put area and the copy faults (`none`); from 1024 bytes on
the put area and the data are handed to the kernel together, the kernel stops
at the end of the readable memory, the put area is not reset after the short
write, and `close()` writes the put area a second time.  (The library's limit
is the smaller of 1024 and the room left in the put area of 8191 bytes; the
put area never holds more than the 44 header bytes here.) -/
def ostreamWrite (file : List Nat) (mem : List Nat) (n : Int) : Option (List Nat) :=
  if n ≤ 0 then some file
  else if n.toNat ≤ mem.length then some (file ++ mem.take n.toNat)
  else if n < 1024 then none
  else some (file ++ mem ++ file)

/-! ## The configuration table -/

/-- The `std::map` of legal outputs, as its key-ordered list of entries. -/
def validConfigurations : List (Int × List (Int × Int)) :=
  [ (176400, [(2, 16), (2, 24), (2, 32), (6, 24), (8, 24)]),
    (352800, [(2, 24), (2, 32), (6, 24)]),
    (705600, [(2, 24), (2, 32), (6, 24)]),
    (1411200, [(2, 24), (2, 32), (6, 24)]),
    (2822400, [(2, 24), (2, 32), (6, 24)]) ]

/-- Embedding of `DSFtoWAVConverter::isValidOutputConfig`: `find` on the map, then the
scan of the pair list. -/
def isValidOutputConfig (pcmSampleRate pcmChannels pcmBitWidth : Int) : Bool :=
  match validConfigurations.lookup pcmSampleRate with
  | none => false
  | some pairs => pairs.any (fun pair => pair.1 == pcmChannels && pair.2 == pcmBitWidth)

/-! ## Header reader and decoder -/

/-- Embedding of `DSFtoWAVConverter::readDSFHeader`: the tags are compared only when 28 bytes
were extracted. -/
def readDSFHeader (w : World) (file : IFStream) : Bool × IFStream × World :=
  let r := ifstreamRead w file 28
  let header := r.1
  (header.length == 28 && header.take 4 == [0x44, 0x53, 0x44, 0x20]
      && (header.drop 12).take 4 == [0x66, 0x6D, 0x74, 0x20],
    r.2.1, r.2.2)

/-- The value pushed by the `for` loop body of `decodeDSDToPCM` for the byte `b`:
`pcmSample` is chosen by `b & 1`, and with `useDoP` the `int` result of
`pcmSample | 0x05FA` is converted back to `int16_t`. -/
def decodeSample (b : Nat) (useDoP : Bool) : Int :=
  let pcmSample : Int := if b &&& 1 ≠ 0 then 32767 else -32768
  if useDoP then wrapInt16 (intOr pcmSample 0x05FA) else pcmSample

/-- The `for` loop of `decodeDSDToPCM` over one block that was read in full:
one `push_back` per byte of the block. -/
def decodeBlock (dsdBlock : List Nat) (pcmData : List Int) (useDoP : Bool) : List Int :=
  dsdBlock.foldl (fun acc b => acc ++ [decodeSample b useDoP]) pcmData

/-- The `while (file.read(block, 4096))` loop of `decodeDSDToPCM`, with a bound
on the number of iterations. -/
def decodeLoop : Nat → World → IFStream → List Int → Bool → World × IFStream × List Int
  | 0, w, file, pcmData, _ => (w, file, pcmData)
  | fuel + 1, w, file, pcmData, useDoP =>
    let r := ifstreamRead w file 4096
    if r.2.1.fail then (r.2.2, r.2.1, pcmData)
    else decodeLoop fuel r.2.2 r.2.1 (decodeBlock r.1 pcmData useDoP) useDoP

/-- Embedding of `DSFtoWAVConverter::decodeDSDToPCM`.  The loop is given one more iteration
than the stream has bytes, which is never exhausted. -/
def decodeDSDToPCM (w : World) (file : IFStream) (pcmData : List Int) (useDoP : Bool) :
    World × IFStream × List Int :=
  decodeLoop (file.data.length + 1) w file pcmData useDoP

/-! ## WAV writer -/

/-- Embedding of `DSFtoWAVConverter::writeWAVHeader`; `file` is the stream content so far. -/
def writeWAVHeader (file : List Nat) (sampleRate channels bitDepth dataSize : Int) :
    Option (List Nat) :=
  let chunkSize := wrapInt (36 + dataSize)
  let byteRate := wrapInt (wrapInt (sampleRate * channels) * Int.tdiv bitDepth 8)
  let blockAlign := wrapInt (channels * Int.tdiv bitDepth 8)
  let subchunk1Size : Int := 16
  let audioFormat : Int := 1
  do
    let file ← ostreamWrite file [0x52, 0x49, 0x46, 0x46, 0] 4
    let file ← ostreamWrite file (intBytes chunkSize) 4
    let file ← ostreamWrite file [0x57, 0x41, 0x56, 0x45, 0] 4
    let file ← ostreamWrite file [0x66, 0x6D, 0x74, 0x20, 0] 4
    let file ← ostreamWrite file (intBytes subchunk1Size) 4
    let file ← ostreamWrite file (intBytes audioFormat) 2
    let file ← ostreamWrite file (intBytes channels) 2
    let file ← ostreamWrite file (intBytes sampleRate) 4
    let file ← ostreamWrite file (intBytes byteRate) 4
    let file ← ostreamWrite file (intBytes blockAlign) 2
    let file ← ostreamWrite file (intBytes bitDepth) 2
    let file ← ostreamWrite file [0x64, 0x61, 0x74, 0x61, 0] 4
    ostreamWrite file (intBytes dataSize) 4

/-- Embedding of `DSFtoWAVConverter::writeWAV`.  `adjacent` is the readable memory
that follows the storage of `pcmData`; the payload write reads `dataSize` bytes
starting at `pcmData.data()`, and `file.close()` follows it; unless the process
faults inside the write the function returns `true` whatever the write did.
The locals `byteRate` and `blockAlign` of the source are never used and are
left out. -/
def writeWAV (w : World) (adjacent : List Nat) (filename : String) (pcmData : List Int)
    (sampleRate channels bitDepth : Int) : Option (Bool × World) :=
  let w := w.record (IOEvent.openOutput filename (w.writable filename))
  if !w.writable filename then some (false, w)
  else
    let dataSize := wrapInt ((pcmData.length : Int) * Int.tdiv bitDepth 8)
    do
      let file ← writeWAVHeader [] sampleRate channels bitDepth dataSize
      let file ← ostreamWrite file (pcmBytes pcmData ++ adjacent) dataSize
      some (true, w.store filename file)

/-- The value of the local `dataSize` of `writeWAV`, which is both written into
the header and passed as the byte count of the payload write. -/
def writeWAVDataSize (pcmData : List Int) (bitDepth : Int) : Int :=
  wrapInt ((pcmData.length : Int) * Int.tdiv bitDepth 8)

/-! ## The pipeline -/

/-- Embedding of `DSFtoWAVConverter::convert`; the messages on `std::cerr` are not
modelled. -/
def convert (w : World) (adjacent : List Nat) (dsfFile wavFile : String)
    (pcmBitWidth pcmSampleRate pcmChannels : Int) (useDoP : Bool) : Option (Bool × World) :=
  if !isValidOutputConfig pcmSampleRate pcmChannels pcmBitWidth then some (false, w)
  else
    match w.files dsfFile with
    | none => some (false, w.record (IOEvent.openInput dsfFile false))
    | some content =>
      let hdr := readDSFHeader (w.record (IOEvent.openInput dsfFile true)) ⟨content, 0, false⟩
      if !hdr.1 then some (false, hdr.2.2)
      else
        let dec := decodeDSDToPCM hdr.2.2 hdr.2.1 [] useDoP
        writeWAV dec.1 adjacent wavFile dec.2.2 pcmSampleRate pcmChannels pcmBitWidth

/-- The nested `for` loops of `main` that print the table of possible conversions:
the outer loop walks the map in key order, the inner loop walks the pair list;
the result lists the printed (rate, channels, bit width) triples in order. -/
def usageTriples : List (Int × Int × Int) :=
  validConfigurations.flatMap (fun config => config.2.map (fun pair => (config.1, pair.1, pair.2)))

/-! ## Notions of the specification -/

/-- The seventeen rows of the specification's configuration table. -/
def specTable : List (Int × Int × Int) :=
  [ (176400, 2, 16), (176400, 2, 24), (176400, 2, 32), (176400, 6, 24), (176400, 8, 24),
    (352800, 2, 24), (352800, 2, 32), (352800, 6, 24),
    (705600, 2, 24), (705600, 2, 32), (705600, 6, 24),
    (1411200, 2, 24), (1411200, 2, 32), (1411200, 6, 24),
    (2822400, 2, 24), (2822400, 2, 32), (2822400, 6, 24) ]

/-- Little-endian two's complement encoding of `x` in a field of `n` bytes. -/
def leBytes : Nat → Int → List Nat
  | 0, _ => []
  | n + 1, x => (x % 256).toNat :: leBytes n (x / 256)

/-- The unsigned number a little-endian byte field holds. -/
def leDecode : List Nat → Nat
  | [] => 0
  | b :: rest => b + 256 * leDecode rest

/-- The signed 16-bit samples a little-endian payload holds, two bytes each. -/
def leSamples : List Nat → List Int
  | lo :: hi :: rest => wrapInt16 ((lo + 256 * hi : Nat) : Int) :: leSamples rest
  | _ => []

/-- The 44 header bytes that the specification lists for a canonical WAV file:
tags as ASCII, every number little-endian in its field width. -/
def specHeader (sampleRate channels bitDepth dataSize : Int) : List Nat :=
  [0x52, 0x49, 0x46, 0x46] ++ leBytes 4 (36 + dataSize) ++ [0x57, 0x41, 0x56, 0x45]
    ++ [0x66, 0x6D, 0x74, 0x20] ++ leBytes 4 16 ++ leBytes 2 1 ++ leBytes 2 channels
    ++ leBytes 4 sampleRate ++ leBytes 4 (sampleRate * channels * Int.tdiv bitDepth 8)
    ++ leBytes 2 (channels * Int.tdiv bitDepth 8) ++ leBytes 2 bitDepth
    ++ [0x64, 0x61, 0x74, 0x61] ++ leBytes 4 dataSize

/-- The bytes of a stream that the block loop of the decoder consumes in
successful reads: whole 4096-byte blocks from the current position on. -/
def decodedBytes (s : IFStream) : List Nat :=
  if s.fail then []
  else (s.data.drop s.pos).take (4096 * ((s.data.length - s.pos) / 4096))

/-- The 16-bit value `s | 0x05FA`: bitwise OR on the 16-bit pattern of `s`. -/
def orMarker16 (s : Int) : Int :=
  wrapInt16 ((((s % 65536).toNat ||| 0x05FA : Nat)) : Int)

/-! ## Concrete inputs used in examples -/

/-- A 28-byte DSF preamble: `"DSD "` at 0, `"fmt "` at 12, zeros elsewhere. -/
def sampleHeader : List Nat :=
  [0x44, 0x53, 0x44, 0x20, 0, 0, 0, 0, 0, 0, 0, 0,
   0x66, 0x6D, 0x74, 0x20, 0, 0, 0, 0, 0, 0, 0, 0, 0, 0, 0, 0]

/-- One 4096-byte block of alternating `0x01`, `0x00`. -/
def alternatingBlock : List Nat :=
  (List.range 4096).map (fun i => if i % 2 = 0 then 1 else 0)

/-- The samples the end-to-end scenario expects: `32767, -32768, ...`. -/
def alternatingSamples : List Int :=
  (List.range 4096).map (fun i => if i % 2 = 0 then 32767 else -32768)

/-- A world whose only file is `in.dsf` with the given content, where every
path can be opened for writing and nothing has happened yet. -/
def worldWith (content : List Nat) : World :=
  { files := fun p => if p = "in.dsf" then some content else none,
    writable := fun _ => true,
    log := [] }

/-! ## Auxiliary lemmas -/

theorem lookup_cases (sr : Int) :
    (sr = 176400 ∨ sr = 352800 ∨ sr = 705600 ∨ sr = 1411200 ∨ sr = 2822400) ∨
      validConfigurations.lookup sr = none := by
  by_cases h1 : sr = 176400
  · exact Or.inl (Or.inl h1)
  by_cases h2 : sr = 352800
  · exact Or.inl (Or.inr (Or.inl h2))
  by_cases h3 : sr = 705600
  · exact Or.inl (Or.inr (Or.inr (Or.inl h3)))
  by_cases h4 : sr = 1411200
  · exact Or.inl (Or.inr (Or.inr (Or.inr (Or.inl h4))))
  by_cases h5 : sr = 2822400
  · exact Or.inl (Or.inr (Or.inr (Or.inr (Or.inr h5))))
  · right
    have e1 : (sr == (176400 : Int)) = false := by simpa using h1
    have e2 : (sr == (352800 : Int)) = false := by simpa using h2
    have e3 : (sr == (705600 : Int)) = false := by simpa using h3
    have e4 : (sr == (1411200 : Int)) = false := by simpa using h4
    have e5 : (sr == (2822400 : Int)) = false := by simpa using h5
    simp [validConfigurations, List.lookup, e1, e2, e3, e4, e5]

theorem isValid_iff (sr ch bd : Int) :
    isValidOutputConfig sr ch bd = true ↔ (sr, ch, bd) ∈ specTable := by
  rcases lookup_cases sr with h | h
  · rcases h with h | h | h | h | h <;> subst h <;>
      simp [isValidOutputConfig, validConfigurations, List.lookup, specTable] <;> omega
  · have hne : ∀ p ∈ specTable, p.1 ≠ sr := by
      intro p hp heq
      simp [specTable] at hp
      rcases hp with rfl | rfl | rfl | rfl | rfl | rfl | rfl | rfl | rfl | rfl | rfl | rfl | rfl | rfl | rfl | rfl | rfl <;>
        (subst heq; simp [validConfigurations, List.lookup] at h)
    constructor
    · intro hv; simp [isValidOutputConfig, h] at hv
    · intro hm; exact absurd rfl (hne _ hm)

theorem read_full (data : List Nat) (pos n : Nat) (h : pos + n ≤ data.length) :
    IFStream.read ⟨data, pos, false⟩ n = ((data.drop pos).take n, ⟨data, pos + n, false⟩) := by
  have hl : ((data.drop pos).take n).length = n := by
    simp [List.length_take, List.length_drop]; omega
  simp [IFStream.read, hl]

theorem read_short (data : List Nat) (pos n : Nat) (hn : 0 < n)
    (h : data.length < pos + n) :
    IFStream.read ⟨data, pos, false⟩ n =
      (data.drop pos, ⟨data, pos + (data.length - pos), true⟩) := by
  have ht : (data.drop pos).take n = data.drop pos := by
    apply List.take_of_length_le
    simp [List.length_drop]; omega
  have hl : ¬ (data.length - pos = n) := by omega
  simp [IFStream.read, ht, hl, List.length_drop]

theorem decodeBlock_eq (block : List Nat) (pcm : List Int) (dop : Bool) :
    decodeBlock block pcm dop = pcm ++ block.map (fun b => decodeSample b dop) := by
  unfold decodeBlock
  induction block generalizing pcm with
  | nil => simp
  | cons b rest ih => simp [List.foldl_cons, ih]

theorem decodeLoop_eq (dop : Bool) (data : List Nat) :
    ∀ (fuel : Nat) (w : World) (pos : Nat) (pcm : List Int),
      (data.length - pos) / 4096 < fuel →
      decodeLoop fuel w ⟨data, pos, false⟩ pcm dop =
        ({ w with log := w.log
              ++ List.replicate ((data.length - pos) / 4096) (IOEvent.readInput 4096 4096)
              ++ [IOEvent.readInput 4096 ((data.length - pos) % 4096)] },
          ⟨data, pos + (data.length - pos), true⟩,
          pcm ++ ((data.drop pos).take (4096 * ((data.length - pos) / 4096))).map
            (fun b => decodeSample b dop)) := by
  intro fuel
  induction fuel with
  | zero => intro w pos pcm h; omega
  | succ fuel ih =>
    intro w pos pcm h
    by_cases hfull : pos + 4096 ≤ data.length
    · have hk : (data.length - pos) / 4096 = (data.length - (pos + 4096)) / 4096 + 1 := by omega
      have hm : (data.length - pos) % 4096 = (data.length - (pos + 4096)) % 4096 := by omega
      have hp : pos + (data.length - pos) = pos + 4096 + (data.length - (pos + 4096)) := by omega
      have hlen : ((data.drop pos).take 4096).length = 4096 := by
        simp [List.length_take, List.length_drop]; omega
      have hlt : (data.length - (pos + 4096)) / 4096 < fuel := by omega
      simp only [decodeLoop, ifstreamRead, read_full data pos 4096 hfull, hlen]
      simp only [Bool.false_eq_true, if_false]
      rw [ih (w.record (IOEvent.readInput 4096 4096)) (pos + 4096) _ hlt, decodeBlock_eq, hk, hm, hp]
      simp only [World.record, List.replicate_succ, Nat.mul_add, Nat.mul_one]
      have htake : List.take (4096 * ((data.length - (pos + 4096)) / 4096) + 4096) (List.drop pos data)
          = List.take 4096 (List.drop pos data)
            ++ List.take (4096 * ((data.length - (pos + 4096)) / 4096)) (List.drop (pos + 4096) data) := by
        rw [Nat.add_comm (4096 * _) 4096, List.take_add, List.drop_drop]
      rw [htake]
      simp [List.append_assoc, Nat.add_comm]
    · have hk : (data.length - pos) / 4096 = 0 := by omega
      have hm : (data.length - pos) % 4096 = data.length - pos := by omega
      simp only [decodeLoop, ifstreamRead, read_short data pos 4096 (by omega) (by omega)]
      simp [hk, hm, World.record, List.length_drop]

theorem readDSFHeader_fst (w : World) (data : List Nat) :
    (readDSFHeader w ⟨data, 0, false⟩).1 =
      (decide (28 ≤ data.length) && data.take 4 == [0x44, 0x53, 0x44, 0x20]
        && (data.drop 12).take 4 == [0x66, 0x6D, 0x74, 0x20]) := by
  by_cases h : 28 ≤ data.length
  · have hl : (List.take 28 data).length = 28 := by simp [List.length_take]; omega
    have h1 : List.take 4 (List.take 28 data) = List.take 4 data := by
      rw [List.take_take]; simp
    have h2 : List.take 4 (List.drop 12 (List.take 28 data)) = List.take 4 (List.drop 12 data) := by
      rw [List.drop_take, List.take_take]; simp
    simp only [readDSFHeader, ifstreamRead, read_full data 0 28 (by omega), List.drop_zero,
      hl, h1, h2]
    simp [h]
  · have hl : ¬ (data.length = 28) := by omega
    simp only [readDSFHeader, ifstreamRead, read_short data 0 28 (by omega) (by omega),
      List.drop_zero]
    simp [h, hl]

theorem readDSFHeader_snd (w : World) (data : List Nat) :
    (readDSFHeader w ⟨data, 0, false⟩).2 =
      (⟨data, min 28 data.length, decide (data.length < 28)⟩,
        w.record (IOEvent.readInput 28 (min 28 data.length))) := by
  by_cases h : 28 ≤ data.length
  · have hl : (List.take 28 data).length = 28 := by simp [List.length_take]; omega
    have hm : min 28 data.length = 28 := by omega
    have hd : decide (data.length < 28) = false := by simp; omega
    simp only [readDSFHeader, ifstreamRead, read_full data 0 28 (by omega), List.drop_zero,
      hl, hm, hd]
  · have hm : min 28 data.length = data.length := by omega
    have hd : decide (data.length < 28) = true := by simp; omega
    simp only [readDSFHeader, ifstreamRead, read_short data 0 28 (by omega) (by omega),
      List.drop_zero, hm, hd]
    simp

theorem wrapInt_emod (x : Int) : wrapInt x % 4294967296 = x % 4294967296 := by
  unfold wrapInt; omega

theorem intBytes_eq_leBytes (v : Int) : intBytes v = leBytes 4 v := by
  simp only [intBytes, leBytes]
  have h0 : 0 ≤ v % 4294967296 := by omega
  congr 1
  · omega
  congr 1
  · omega
  congr 1
  · omega
  congr 1
  · omega

theorem intBytes_take_two (v : Int) : (intBytes v).take 2 = leBytes 2 v := by
  rw [intBytes_eq_leBytes]; simp [leBytes]

theorem leBytes_congr (n : Nat) (x y : Int) (h : x % 4294967296 = y % 4294967296) (hn : n ≤ 4) :
    leBytes n x = leBytes n y := by
  have h4 : leBytes 4 x = leBytes 4 y := by
    rw [← intBytes_eq_leBytes, ← intBytes_eq_leBytes]; simp [intBytes, h]
  have : ∀ m z, m ≤ 4 → leBytes m z = (leBytes 4 z).take m := by
    intro m z hm
    interval_cases m <;> simp [leBytes]
  rw [this n x hn, this n y hn, h4]

theorem intBytes_wrapInt (x : Int) : intBytes (wrapInt x) = leBytes 4 x := by
  rw [intBytes_eq_leBytes]; exact leBytes_congr 4 _ _ (wrapInt_emod x) (by omega)

theorem intBytes_length (v : Int) : (intBytes v).length = 4 := by simp [intBytes]

theorem leBytes_length (n : Nat) : ∀ x : Int, (leBytes n x).length = n := by
  induction n with
  | zero => intro x; rfl
  | succ n ih => intro x; simp [leBytes, ih]

theorem ostreamWrite_four (file mem : List Nat) (h : 4 ≤ mem.length) :
    ostreamWrite file mem 4 = some (file ++ mem.take 4) := by
  simp [ostreamWrite, h]

theorem ostreamWrite_two (file mem : List Nat) (h : 2 ≤ mem.length) :
    ostreamWrite file mem 2 = some (file ++ mem.take 2) := by
  simp [ostreamWrite, h]

theorem byteRate_emod (sr ch bps : Int) :
    wrapInt (wrapInt (sr * ch) * bps) % 4294967296 = (sr * ch * bps) % 4294967296 := by
  rw [wrapInt_emod, Int.mul_emod, wrapInt_emod, ← Int.mul_emod]

theorem writeWAVHeader_eq (file : List Nat) (sr ch bd ds : Int) :
    writeWAVHeader file sr ch bd ds = some (file ++ specHeader sr ch bd ds) := by
  have e1 : intBytes (wrapInt (36 + ds)) = leBytes 4 (36 + ds) := intBytes_wrapInt _
  have e2 : intBytes (wrapInt (wrapInt (sr * ch) * Int.tdiv bd 8))
      = leBytes 4 (sr * ch * Int.tdiv bd 8) := by
    rw [intBytes_eq_leBytes]
    exact leBytes_congr 4 _ _ (byteRate_emod sr ch _) (by omega)
  have e3 : (intBytes (wrapInt (ch * Int.tdiv bd 8))).take 2 = leBytes 2 (ch * Int.tdiv bd 8) := by
    rw [intBytes_take_two]
    exact leBytes_congr 2 _ _ (wrapInt_emod _) (by omega)
  simp only [writeWAVHeader, specHeader]
  rw [ostreamWrite_four _ _ (by simp)]
  simp only [Option.bind_eq_bind, Option.some_bind]
  rw [ostreamWrite_four _ _ (by simp [intBytes_length])]
  simp only [Option.some_bind]
  rw [ostreamWrite_four _ _ (by simp)]
  simp only [Option.some_bind]
  rw [ostreamWrite_four _ _ (by simp)]
  simp only [Option.some_bind]
  rw [ostreamWrite_four _ _ (by simp [intBytes_length])]
  simp only [Option.some_bind]
  rw [ostreamWrite_two _ _ (by simp [intBytes_length])]
  simp only [Option.some_bind]
  rw [ostreamWrite_two _ _ (by simp [intBytes_length])]
  simp only [Option.some_bind]
  rw [ostreamWrite_four _ _ (by simp [intBytes_length])]
  simp only [Option.some_bind]
  rw [ostreamWrite_four _ _ (by simp [intBytes_length])]
  simp only [Option.some_bind]
  rw [ostreamWrite_two _ _ (by simp [intBytes_length])]
  simp only [Option.some_bind]
  rw [ostreamWrite_two _ _ (by simp [intBytes_length])]
  simp only [Option.some_bind]
  rw [ostreamWrite_four _ _ (by simp)]
  simp only [Option.some_bind]
  rw [ostreamWrite_four _ _ (by simp [intBytes_length])]
  rw [e1, e2, e3, intBytes_take_two, intBytes_take_two, intBytes_take_two]
  simp only [intBytes_eq_leBytes]
  have t4 : ∀ x : Int, (leBytes 4 x).take 4 = leBytes 4 x := by
    intro x; exact List.take_of_length_le (by simp [leBytes_length])
  simp [t4, List.append_assoc]

theorem specHeader_length (sr ch bd ds : Int) : (specHeader sr ch bd ds).length = 44 := by
  simp [specHeader, leBytes_length]

theorem decodeDSDToPCM_eq (dop : Bool) (w : World) (data : List Nat) (pos : Nat)
    (pcm : List Int) :
    decodeDSDToPCM w ⟨data, pos, false⟩ pcm dop =
      ({ w with log := w.log
            ++ List.replicate ((data.length - pos) / 4096) (IOEvent.readInput 4096 4096)
            ++ [IOEvent.readInput 4096 ((data.length - pos) % 4096)] },
        ⟨data, pos + (data.length - pos), true⟩,
        pcm ++ ((data.drop pos).take (4096 * ((data.length - pos) / 4096))).map
          (fun b => decodeSample b dop)) := by
  unfold decodeDSDToPCM
  apply decodeLoop_eq
  have : (data.length - pos) / 4096 ≤ data.length := by omega
  simp only
  omega

theorem decodeDSDToPCM_pcm (w : World) (s : IFStream) (pcm : List Int) (dop : Bool) :
    (decodeDSDToPCM w s pcm dop).2.2 = pcm ++ (decodedBytes s).map (fun b => decodeSample b dop) := by
  obtain ⟨data, pos, fail⟩ := s
  cases fail with
  | false => rw [decodeDSDToPCM_eq]; simp [decodedBytes]
  | true => simp [decodeDSDToPCM, decodeLoop, ifstreamRead, IFStream.read, decodedBytes]

theorem decodeSample_plain (b : Nat) :
    decodeSample b false = if b % 2 = 1 then 32767 else -32768 := by
  have h := Nat.and_one_is_mod b
  have h2 : b % 2 = 0 ∨ b % 2 = 1 := by omega
  rcases h2 with h2 | h2 <;> simp [decodeSample, h, h2]

theorem decodedBytes_one_block (pre block : List Nat) (h : block.length = 4096) :
    decodedBytes ⟨pre ++ block, pre.length, false⟩ = block := by
  have hk : (pre.length + block.length - pre.length) / 4096 = 1 := by omega
  simp only [decodedBytes, Bool.false_eq_true, if_false, List.length_append, hk,
    List.drop_left, Nat.mul_one]
  exact List.take_of_length_le (by omega)

theorem pcmBytes_length (pcm : List Int) : (pcmBytes pcm).length = 2 * pcm.length := by
  induction pcm with
  | nil => rfl
  | cons s rest ih => simp [pcmBytes, int16Bytes, ih]; omega

theorem pcmBytes_append (a b : List Int) : pcmBytes (a ++ b) = pcmBytes a ++ pcmBytes b := by
  induction a with
  | nil => rfl
  | cons s rest ih => simp [pcmBytes, ih]

theorem leSamples_cons2 (lo hi : Nat) (rest : List Nat) :
    leSamples (lo :: hi :: rest) = wrapInt16 ((lo + 256 * hi : Nat) : Int) :: leSamples rest := by
  rw [leSamples]

theorem pcmBytes_cons (s : Int) (rest : List Int) :
    pcmBytes (s :: rest)
      = ((s % 65536).toNat % 256) :: ((s % 65536).toNat / 256 % 256) :: pcmBytes rest := by
  rw [pcmBytes]; rfl

theorem leSamples_pcmBytes (pcm : List Int) (h : ∀ x ∈ pcm, -32768 ≤ x ∧ x ≤ 32767) :
    leSamples (pcmBytes pcm) = pcm := by
  induction pcm with
  | nil => rfl
  | cons s rest ih =>
    have hs := h s (List.mem_cons_self _ _)
    have hr : ∀ x ∈ rest, -32768 ≤ x ∧ x ≤ 32767 := fun x hx => h x (List.mem_cons_of_mem _ hx)
    have hv : wrapInt16 ((((s % 65536).toNat % 256 + 256 * ((s % 65536).toNat / 256 % 256) : Nat)) : Int)
        = s := by
      unfold wrapInt16
      omega
    rw [pcmBytes_cons, leSamples_cons2, ih hr, hv]

theorem leDecode_leBytes_four (x : Int) :
    leDecode (leBytes 4 x) = (x % 4294967296).toNat := by
  simp only [leBytes, leDecode]
  omega

theorem ostreamWrite_nonpos (file mem : List Nat) (n : Int) (h : n ≤ 0) :
    ostreamWrite file mem n = some file := by
  simp [ostreamWrite, h]

theorem ostreamWrite_inside (file mem : List Nat) (n : Int) (hpos : 0 < n)
    (h : n.toNat ≤ mem.length) :
    ostreamWrite file mem n = some (file ++ mem.take n.toNat) := by
  have : ¬ n ≤ 0 := by omega
  simp [ostreamWrite, this, h]

theorem ostreamWrite_fault (file mem : List Nat) (n : Int) (hpos : 0 < n)
    (h : mem.length < n.toNat) (hsmall : n < 1024) :
    ostreamWrite file mem n = none := by
  have h1 : ¬ n ≤ 0 := by omega
  have h2 : ¬ n.toNat ≤ mem.length := by omega
  simp [ostreamWrite, h1, h2, hsmall]

theorem ostreamWrite_short (file mem : List Nat) (n : Int) (h : mem.length < n.toNat)
    (hbig : 1024 ≤ n) :
    ostreamWrite file mem n = some (file ++ mem ++ file) := by
  have h1 : ¬ n ≤ 0 := by omega
  have h2 : ¬ n.toNat ≤ mem.length := by omega
  have h3 : ¬ n < 1024 := by omega
  simp [ostreamWrite, h1, h2, h3]

theorem ostreamWrite_within (file mem : List Nat) (n : Int) (hn : 0 ≤ n)
    (h : n.toNat ≤ mem.length) :
    ostreamWrite file mem n = some (file ++ mem.take n.toNat) := by
  by_cases h0 : n ≤ 0
  · have hz : n = 0 := by omega
    subst hz
    rw [ostreamWrite_nonpos _ _ _ (by omega)]
    simp
  · exact ostreamWrite_inside _ _ _ (by omega) h

theorem writeWAV_writable (w : World) (adj : List Nat) (f : String) (pcm : List Int)
    (sr ch bd : Int) (hw : w.writable f = true) :
    writeWAV w adj f pcm sr ch bd =
      (ostreamWrite (specHeader sr ch bd (wrapInt ((pcm.length : Int) * Int.tdiv bd 8)))
          (pcmBytes pcm ++ adj) (wrapInt ((pcm.length : Int) * Int.tdiv bd 8))).map
        (fun file => (true, (w.record (IOEvent.openOutput f true)).store f file)) := by
  simp only [writeWAV, World.record, hw, writeWAVHeader_eq, List.nil_append]
  cases h : ostreamWrite (specHeader sr ch bd (wrapInt ((pcm.length : Int) * Int.tdiv bd 8)))
      (pcmBytes pcm ++ adj) (wrapInt ((pcm.length : Int) * Int.tdiv bd 8)) <;> simp [h]

theorem writeWAV_unwritable (w : World) (adj : List Nat) (f : String) (pcm : List Int)
    (sr ch bd : Int) (hw : w.writable f = false) :
    writeWAV w adj f pcm sr ch bd = some (false, w.record (IOEvent.openOutput f false)) := by
  simp [writeWAV, World.record, hw]

theorem readDSFHeader_ok_eq (w : World) (data : List Nat)
    (ht : (readDSFHeader w ⟨data, 0, false⟩).1 = true) :
    readDSFHeader w ⟨data, 0, false⟩
      = (true, ⟨data, 28, false⟩, w.record (IOEvent.readInput 28 28)) := by
  have h1 := readDSFHeader_fst w data
  have h2 := readDSFHeader_snd w data
  have h28 : 28 ≤ data.length := by
    rw [h1] at ht; simp at ht; exact ht.1.1
  have hm : min 28 data.length = 28 := by omega
  have hd : decide (data.length < 28) = false := by simp; omega
  rw [hm, hd] at h2
  exact Prod.ext ht h2

theorem convert_header_ok (w : World) (adj : List Nat) (dsf wav : String) (bw sr ch : Int)
    (dop : Bool) (content : List Nat) (hv : isValidOutputConfig sr ch bw = true)
    (hf : w.files dsf = some content)
    (hh : (readDSFHeader (w.record (IOEvent.openInput dsf true)) ⟨content, 0, false⟩).1 = true) :
    convert w adj dsf wav bw sr ch dop =
      writeWAV
        { w with log := w.log ++ [IOEvent.openInput dsf true, IOEvent.readInput 28 28]
            ++ List.replicate ((content.length - 28) / 4096) (IOEvent.readInput 4096 4096)
            ++ [IOEvent.readInput 4096 ((content.length - 28) % 4096)] }
        adj wav ((decodedBytes ⟨content, 28, false⟩).map (fun b => decodeSample b dop))
        sr ch bw := by
  have hr := readDSFHeader_ok_eq (w.record (IOEvent.openInput dsf true)) content hh
  unfold convert
  simp only [hv, hf, Bool.not_true, Bool.false_eq_true, if_false]
  rw [hr]
  simp only [Bool.not_true, Bool.false_eq_true, if_false,
    decodeDSDToPCM_eq, decodedBytes, World.record, List.nil_append, List.append_assoc,
    List.singleton_append, List.cons_append]

theorem convert_header_bad (w : World) (adj : List Nat) (dsf wav : String) (bw sr ch : Int)
    (dop : Bool) (content : List Nat) (hv : isValidOutputConfig sr ch bw = true)
    (hf : w.files dsf = some content)
    (hh : (readDSFHeader (w.record (IOEvent.openInput dsf true)) ⟨content, 0, false⟩).1 = false) :
    convert w adj dsf wav bw sr ch dop =
      some (false, { w with log := w.log ++ [IOEvent.openInput dsf true,
        IOEvent.readInput 28 (min 28 content.length)] }) := by
  have h2 := readDSFHeader_snd (w.record (IOEvent.openInput dsf true)) content
  unfold convert
  simp only [hv, hf, Bool.not_true, Bool.false_eq_true, if_false]
  rw [hh, h2]
  simp only [Bool.not_false, if_true, World.record, List.append_assoc,
    List.singleton_append, List.cons_append, List.nil_append]

theorem readDSFHeader_of_tags (w : World) (hdr payload : List Nat) (hlen : hdr.length = 28)
    (hd : hdr.take 4 = [0x44, 0x53, 0x44, 0x20])
    (hf : (hdr.drop 12).take 4 = [0x66, 0x6D, 0x74, 0x20]) :
    (readDSFHeader w ⟨hdr ++ payload, 0, false⟩).1 = true := by
  have h1 : (hdr ++ payload).take 4 = [0x44, 0x53, 0x44, 0x20] := by
    rw [List.take_append_of_le_length (by omega)]; exact hd
  have h2 : ((hdr ++ payload).drop 12).take 4 = [0x66, 0x6D, 0x74, 0x20] := by
    rw [List.drop_append_of_le_length (by omega),
      List.take_append_of_le_length (by simp [List.length_drop]; omega)]
    exact hf
  rw [readDSFHeader_fst, h1, h2]
  simp [List.length_append]; omega

theorem convert_one_block (w : World) (adj : List Nat) (dsf wav : String) (bw sr ch : Int)
    (dop : Bool) (hdr block : List Nat) (hv : isValidOutputConfig sr ch bw = true)
    (hfile : w.files dsf = some (hdr ++ block)) (hlen : hdr.length = 28)
    (hd : hdr.take 4 = [0x44, 0x53, 0x44, 0x20])
    (hf : (hdr.drop 12).take 4 = [0x66, 0x6D, 0x74, 0x20])
    (hb : block.length = 4096) (hw : w.writable wav = true) :
    convert w adj dsf wav bw sr ch dop =
      (ostreamWrite (specHeader sr ch bw (wrapInt (4096 * Int.tdiv bw 8)))
          (pcmBytes (block.map (fun b => decodeSample b dop)) ++ adj)
          (wrapInt (4096 * Int.tdiv bw 8))).map
        (fun file => (true,
          World.store
            { w with log := w.log ++ [IOEvent.openInput dsf true, IOEvent.readInput 28 28,
                IOEvent.readInput 4096 4096, IOEvent.readInput 4096 0,
                IOEvent.openOutput wav true] }
            wav file)) := by
  have hh := readDSFHeader_of_tags (w.record (IOEvent.openInput dsf true)) hdr block hlen hd hf
  have hdec : decodedBytes ⟨hdr ++ block, 28, false⟩ = block := by
    have := decodedBytes_one_block hdr block hb
    rwa [hlen] at this
  have hk : ((hdr ++ block).length - 28) / 4096 = 1 := by
    simp only [List.length_append]; omega
  have hm : ((hdr ++ block).length - 28) % 4096 = 0 := by
    simp only [List.length_append]; omega
  rw [convert_header_ok w adj dsf wav bw sr ch dop (hdr ++ block) hv hfile hh, hdec, hk, hm,
    writeWAV_writable]
  · simp [World.record, hb]
  · exact hw

theorem map_decodeSample_alternating :
    alternatingBlock.map (fun b => decodeSample b false) = alternatingSamples := by
  unfold alternatingBlock alternatingSamples
  rw [List.map_map]
  apply List.map_congr_left
  intro i _
  by_cases h : i % 2 = 0 <;> simp [h, decodeSample]

theorem alternatingSamples_length : alternatingSamples.length = 4096 := by
  simp [alternatingSamples]

theorem alternatingBlock_length : alternatingBlock.length = 4096 := by
  simp [alternatingBlock]

theorem alternatingSamples_range : ∀ x ∈ alternatingSamples, -32768 ≤ x ∧ x ≤ 32767 := by
  intro x hx
  simp only [alternatingSamples, List.mem_map] at hx
  obtain ⟨i, _, rfl⟩ := hx
  by_cases h : i % 2 = 0 <;> simp [h]

theorem worldWith_files (content : List Nat) :
    (worldWith content).files "in.dsf" = some content := by
  simp [worldWith]

theorem World.store_files_self (w : World) (path : String) (bytes : List Nat) :
    (w.store path bytes).files path = some bytes := by
  simp [World.store]

theorem specHeader_take_riff (sr ch bd ds : Int) (rest : List Nat) :
    (specHeader sr ch bd ds ++ rest).take 4 = [0x52, 0x49, 0x46, 0x46] := by
  simp [specHeader, leBytes]

theorem specHeader_wave (sr ch bd ds : Int) (rest : List Nat) :
    ((specHeader sr ch bd ds ++ rest).drop 8).take 4 = [0x57, 0x41, 0x56, 0x45] := by
  simp [specHeader, leBytes]

theorem specHeader_dataSize (sr ch bd ds : Int) (rest : List Nat) :
    ((specHeader sr ch bd ds ++ rest).drop 40).take 4 = leBytes 4 ds := by
  simp [specHeader, leBytes]

theorem decodeSample_dop (b : Nat) :
    decodeSample b true = if b % 2 = 1 then 32767 else -31238 := by
  have h := Nat.and_one_is_mod b
  have h2 : b % 2 = 0 ∨ b % 2 = 1 := by omega
  rcases h2 with h2 | h2
  · have e : decodeSample b true = wrapInt16 (intOr (-32768) 0x05FA) := by
      simp [decodeSample, h, h2]
    rw [e]; simp [h2]; decide
  · have e : decodeSample b true = wrapInt16 (intOr 32767 0x05FA) := by
      simp [decodeSample, h, h2]
    rw [e]; simp [h2]; decide

theorem decodeSample_orMarker (b : Nat) :
    decodeSample b true = orMarker16 (decodeSample b false) := by
  rw [decodeSample_dop, decodeSample_plain]
  by_cases h : b % 2 = 1 <;> simp [h] <;> decide

theorem decodeDSDToPCM_getElem (w : World) (s : IFStream) (pcm : List Int) (dop : Bool) (i : Nat)
    (h : pcm.length + i < (decodeDSDToPCM w s pcm dop).2.2.length) :
    ∃ b, s.data[s.pos + i]? = some b
      ∧ (decodeDSDToPCM w s pcm dop).2.2[pcm.length + i]? = some (decodeSample b dop) := by
  rw [decodeDSDToPCM_pcm] at h ⊢
  have hi : i < (decodedBytes s).length := by
    simp only [List.length_append, List.length_map] at h; omega
  have hfail : s.fail = false := by
    cases hf : s.fail with
    | false => rfl
    | true => simp [decodedBytes, hf] at hi
  have hb : (decodedBytes s)[i]? = s.data[s.pos + i]? := by
    have hlt : i < 4096 * ((s.data.length - s.pos) / 4096) := by
      simp [decodedBytes, hfail, List.length_take] at hi; omega
    simp [decodedBytes, hfail, List.getElem?_take, hlt, List.getElem?_drop]
  refine ⟨(decodedBytes s)[i], ?_, ?_⟩
  · rw [← hb]; exact List.getElem?_eq_getElem hi
  · rw [List.getElem?_append_right (by omega)]
    simp only [Nat.add_sub_cancel_left, List.getElem?_map, List.getElem?_eq_getElem hi,
      Option.map_some']

theorem decodeDSDToPCM_length_dop (w : World) (s : IFStream) (pcm : List Int) (d1 d2 : Bool) :
    (decodeDSDToPCM w s pcm d1).2.2.length = (decodeDSDToPCM w s pcm d2).2.2.length := by
  simp [decodeDSDToPCM_pcm]

theorem one_block_nonempty (w : World) (block : List Nat) (hb : block.length = 4096)
    (dop : Bool) :
    ([] : List Int).length + 0 < (decodeDSDToPCM w ⟨block, 0, false⟩ [] dop).2.2.length := by
  rw [decodeDSDToPCM_pcm]
  have hd := decodedBytes_one_block [] block hb
  simp only [List.nil_append, List.length_nil] at hd
  rw [hd]
  simp only [List.length_append, List.length_map, List.length_nil, hb]
  omega

theorem leDecode_leBytes_two (x : Int) :
    leDecode (leBytes 2 x) = (x % 65536).toNat := by
  simp only [leBytes, leDecode]
  omega

theorem specHeader_slices (sr ch bd ds : Int) :
    ((specHeader sr ch bd ds).drop 4).take 4 = leBytes 4 (36 + ds)
      ∧ ((specHeader sr ch bd ds).drop 22).take 2 = leBytes 2 ch
      ∧ ((specHeader sr ch bd ds).drop 24).take 4 = leBytes 4 sr
      ∧ ((specHeader sr ch bd ds).drop 28).take 4 = leBytes 4 (sr * ch * Int.tdiv bd 8)
      ∧ ((specHeader sr ch bd ds).drop 32).take 2 = leBytes 2 (ch * Int.tdiv bd 8)
      ∧ ((specHeader sr ch bd ds).drop 34).take 2 = leBytes 2 bd
      ∧ ((specHeader sr ch bd ds).drop 40).take 4 = leBytes 4 ds := by
  simp [specHeader, leBytes]

theorem mul_le_two_mul_iff (n k : Int) (hn : 0 ≤ n) : n * k ≤ 2 * n ↔ n = 0 ∨ k ≤ 2 := by
  constructor
  · intro h
    by_cases h0 : n = 0
    · exact Or.inl h0
    · right
      have hpos : 0 < n := by omega
      by_contra hk
      have hk3 : 3 ≤ k := by omega
      have : n * 3 ≤ n * k := Int.mul_le_mul_of_nonneg_left hk3 hn
      omega
  · intro h
    rcases h with h | h
    · subst h; simp
    · have : n * k ≤ n * 2 := Int.mul_le_mul_of_nonneg_left h hn
      omega

theorem specTable_rows :
    ∀ t ∈ specTable,
      (t.2.2 = 16 ∨ t.2.2 = 24 ∨ t.2.2 = 32)
        ∧ t.2.2 % 8 = 0
        ∧ 8 * Int.tdiv t.2.2 8 = t.2.2
        ∧ Int.tdiv t.2.2 8 = t.2.2 / 8
        ∧ (Int.tdiv t.2.2 8 = 2 ∨ Int.tdiv t.2.2 8 = 3 ∨ Int.tdiv t.2.2 8 = 4)
        ∧ (t.2.1 = 2 ∨ t.2.1 = 6 ∨ t.2.1 = 8)
        ∧ 0 < t.1 := by
  decide

theorem specTable_fields :
    ∀ t ∈ specTable,
      wrapInt (wrapInt (t.1 * t.2.1) * Int.tdiv t.2.2 8) = t.1 * t.2.1 * (t.2.2 / 8)
        ∧ 0 < t.1 * t.2.1 * (t.2.2 / 8)
        ∧ t.1 * t.2.1 * (t.2.2 / 8) ≤ 50803200
        ∧ wrapInt (t.2.1 * Int.tdiv t.2.2 8) = t.2.1 * (t.2.2 / 8)
        ∧ (0 ≤ t.2.1 ∧ t.2.1 < 65536)
        ∧ (0 ≤ t.2.1 * (t.2.2 / 8) ∧ t.2.1 * (t.2.2 / 8) < 65536)
        ∧ (0 ≤ t.2.2 ∧ t.2.2 < 65536)
        ∧ ((t.2.1 % 65536).toNat : Int) = t.2.1
        ∧ ((t.1 % 4294967296).toNat : Int) = t.1
        ∧ (((t.1 * t.2.1 * Int.tdiv t.2.2 8) % 4294967296).toNat : Int)
            = t.1 * (t.2.1 * (t.2.2 / 8))
        ∧ (((t.2.1 * Int.tdiv t.2.2 8) % 65536).toNat : Int) = t.2.1 * (t.2.2 / 8)
        ∧ ((t.2.2 % 65536).toNat : Int) = t.2.2 := by
  decide

theorem decodedBytes_length (s : IFStream) :
    (decodedBytes s).length = 4096 * ((decodedBytes s).length / 4096) := by
  unfold decodedBytes
  cases s.fail with
  | true => simp
  | false =>
    have h : 4096 * ((s.data.length - s.pos) / 4096) ≤ s.data.length - s.pos :=
      Nat.mul_div_le _ _
    simp only [Bool.false_eq_true, if_false, List.length_take, List.length_drop]
    omega

theorem ostreamWrite_blocks (file mem : List Nat) (n : Int) (k : Nat)
    (hmem : 8192 * k ≤ mem.length) (hn : k = 0 → n ≤ 0) :
    ∃ out, ostreamWrite file mem n = some out := by
  by_cases h0 : n ≤ 0
  · exact ⟨_, ostreamWrite_nonpos _ _ _ h0⟩
  · by_cases hin : n.toNat ≤ mem.length
    · exact ⟨_, ostreamWrite_inside _ _ _ (by omega) hin⟩
    · have hk : k ≠ 0 := fun hk => h0 (hn hk)
      exact ⟨_, ostreamWrite_short _ _ _ (by omega) (by omega)⟩

theorem writeWAV_blocks_returns (w : World) (adj : List Nat) (f : String) (pcm : List Int)
    (sr ch bd : Int) (k : Nat) (hlen : pcm.length = 4096 * k) (hw : w.writable f = true) :
    ∃ w', writeWAV w adj f pcm sr ch bd = some (true, w') := by
  rw [writeWAV_writable _ _ _ _ _ _ _ hw]
  obtain ⟨out, hout⟩ := ostreamWrite_blocks
    (specHeader sr ch bd (wrapInt ((pcm.length : Int) * Int.tdiv bd 8)))
    (pcmBytes pcm ++ adj) (wrapInt ((pcm.length : Int) * Int.tdiv bd 8)) k
    (by rw [List.length_append, pcmBytes_length]; omega)
    (by
      intro hk
      have h0 : pcm.length = 0 := by omega
      rw [h0]
      simp [wrapInt])
  rw [hout]
  exact ⟨_, rfl⟩

theorem convert_of_conditions (w : World) (adj : List Nat) (dsf wav : String) (bw sr ch : Int)
    (dop : Bool) (content : List Nat) (hv : isValidOutputConfig sr ch bw = true)
    (hf : w.files dsf = some content)
    (hh : (readDSFHeader (w.record (IOEvent.openInput dsf true)) ⟨content, 0, false⟩).1 = true)
    (hw : w.writable wav = true) :
    ∃ w', convert w adj dsf wav bw sr ch dop = some (true, w') := by
  rw [convert_header_ok w adj dsf wav bw sr ch dop content hv hf hh]
  apply writeWAV_blocks_returns _ _ _ _ _ _ _ ((decodedBytes ⟨content, 28, false⟩).length / 4096)
  · rw [List.length_map]; exact decodedBytes_length _
  · exact hw

theorem convert_unwritable (w : World) (adj : List Nat) (dsf wav : String) (bw sr ch : Int)
    (dop : Bool) (content : List Nat) (hv : isValidOutputConfig sr ch bw = true)
    (hf : w.files dsf = some content)
    (hh : (readDSFHeader (w.record (IOEvent.openInput dsf true)) ⟨content, 0, false⟩).1 = true)
    (hw : w.writable wav = false) :
    convert w adj dsf wav bw sr ch dop =
      some (false,
        { w with log := w.log ++ [IOEvent.openInput dsf true, IOEvent.readInput 28 28]
                  ++ List.replicate ((content.length - 28) / 4096) (IOEvent.readInput 4096 4096)
                  ++ [IOEvent.readInput 4096 ((content.length - 28) % 4096)]
                  ++ [IOEvent.openOutput wav false] }) := by
  rw [convert_header_ok w adj dsf wav bw sr ch dop content hv hf hh, writeWAV_unwritable]
  · simp [World.record]
  · exact hw

theorem convert_no_file (w : World) (adj : List Nat) (dsf wav : String) (bw sr ch : Int)
    (dop : Bool) (hv : isValidOutputConfig sr ch bw = true) (hf : w.files dsf = none) :
    convert w adj dsf wav bw sr ch dop
      = some (false, w.record (IOEvent.openInput dsf false)) := by
  simp [convert, hv, hf]

theorem convert_not_valid (w : World) (adj : List Nat) (dsf wav : String) (bw sr ch : Int)
    (dop : Bool) (hv : isValidOutputConfig sr ch bw = false) :
    convert w adj dsf wav bw sr ch dop = some (false, w) := by
  simp [convert, hv]

/-! ## The claims -/

/-- C1: `isValidOutputConfig` answers `true` exactly on the seventeen rows of the
configuration table and `false` on every other triple of integers, in
particular for an absent sample rate and for a pair not listed under a present
sample rate. -/
theorem isValidOutputConfig_iff_table (sampleRate channels bitDepth : Int) :
    (isValidOutputConfig sampleRate channels bitDepth = true
        ↔ (sampleRate, channels, bitDepth) ∈ specTable)
      ∧ (isValidOutputConfig sampleRate channels bitDepth = false
        ↔ (sampleRate, channels, bitDepth) ∉ specTable)
      ∧ specTable.length = 17 ∧ specTable.Nodup := by
  have h := isValid_iff sampleRate channels bitDepth
  refine ⟨h, ?_, by decide, by decide⟩
  rw [← h]
  cases isValidOutputConfig sampleRate channels bitDepth <;> simp

/-- C2 (the code departs from the claim): on a stream holding a valid header
followed by a single payload byte the decoder issues one block read, which
comes back short, and appends no sample although one byte was read. -/
theorem decodeDSDToPCM_short_block_lost :
    (sampleHeader ++ [1]).length - 28 = 1
      ∧ (decodeDSDToPCM (worldWith (sampleHeader ++ [1])) ⟨sampleHeader ++ [1], 28, false⟩
          [] false).2.2 = []
      ∧ (decodeDSDToPCM (worldWith (sampleHeader ++ [1])) ⟨sampleHeader ++ [1], 28, false⟩
          [] false).1.log = [IOEvent.readInput 4096 1] := by
  refine ⟨by decide, by decide, by decide⟩

/-- C3: without DoP, the sample at position `i` of the decoder's output comes
from the byte at position `i` after the stream cursor and is fixed by that
byte's low bit alone: 32767 when the bit is 1, -32768 when it is 0. -/
theorem decodeDSDToPCM_sample_by_low_bit (w : World) (s : IFStream) (pcm : List Int) (i : Nat)
    (h : pcm.length + i < (decodeDSDToPCM w s pcm false).2.2.length) :
    ∃ b, s.data[s.pos + i]? = some b
      ∧ (decodeDSDToPCM w s pcm false).2.2[pcm.length + i]?
          = some (if b &&& 1 = 1 then 32767 else -32768)
      ∧ b &&& 1 = b % 2 := by
  rw [decodeDSDToPCM_pcm] at h ⊢
  have hi : i < (decodedBytes s).length := by
    simp only [List.length_append, List.length_map] at h; omega
  have hfail : s.fail = false := by
    cases hf : s.fail with
    | false => rfl
    | true => simp [decodedBytes, hf] at hi
  have hb : (decodedBytes s)[i]? = s.data[s.pos + i]? := by
    have hlt : i < 4096 * ((s.data.length - s.pos) / 4096) := by
      simp [decodedBytes, hfail, List.length_take] at hi; omega
    simp [decodedBytes, hfail, List.getElem?_take, hlt, List.getElem?_drop]
  refine ⟨(decodedBytes s)[i], ?_, ?_, Nat.and_one_is_mod _⟩
  · rw [← hb]; exact List.getElem?_eq_getElem hi
  · rw [List.getElem?_append_right (by omega)]
    simp only [Nat.add_sub_cancel_left, List.getElem?_map, List.getElem?_eq_getElem hi,
      Option.map_some', decodeSample_plain, Nat.and_one_is_mod]

/-- Witness for C3: the first byte of a stream holding one block of 4096 bytes `0x01`. -/
theorem decodeDSDToPCM_sample_by_low_bit_witness :
    ([] : List Int).length + 0
        < (decodeDSDToPCM (worldWith []) ⟨List.replicate 4096 1, 0, false⟩ [] false).2.2.length
      ∧ ∃ b, (List.replicate 4096 1)[0 + 0]? = some b
        ∧ (decodeDSDToPCM (worldWith []) ⟨List.replicate 4096 1, 0, false⟩ [] false).2.2[0 + 0]?
            = some (if b &&& 1 = 1 then 32767 else -32768)
        ∧ b &&& 1 = b % 2 :=
  have h : ([] : List Int).length + 0
      < (decodeDSDToPCM (worldWith []) ⟨List.replicate 4096 1, 0, false⟩ [] false).2.2.length := by
    rw [decodeDSDToPCM_pcm]
    have hd := decodedBytes_one_block [] (List.replicate 4096 1) (List.length_replicate _ _)
    simp only [List.nil_append, List.length_nil] at hd
    rw [hd]
    simp only [List.length_append, List.length_map, List.length_replicate, List.length_nil]
    omega
  ⟨h, decodeDSDToPCM_sample_by_low_bit (worldWith []) ⟨List.replicate 4096 1, 0, false⟩ [] 0 h⟩

/-- C4: on a freshly opened stream `readDSFHeader` succeeds exactly when at
least 28 bytes are present, bytes 0..3 are `"DSD "` and bytes 12..15 are
`"fmt "`; it succeeds exactly when it leaves the cursor at offset 28 with the
stream still good after one read of 28 bytes. -/
theorem readDSFHeader_iff (w : World) (data : List Nat) :
    ((readDSFHeader w ⟨data, 0, false⟩).1 = true
        ↔ 28 ≤ data.length ∧ data.take 4 = [0x44, 0x53, 0x44, 0x20]
          ∧ (data.drop 12).take 4 = [0x66, 0x6D, 0x74, 0x20])
      ∧ ((readDSFHeader w ⟨data, 0, false⟩).1 = true
        ↔ readDSFHeader w ⟨data, 0, false⟩
            = (true, ⟨data, 28, false⟩, w.record (IOEvent.readInput 28 28))) := by
  have h1 := readDSFHeader_fst w data
  have h2 := readDSFHeader_snd w data
  constructor
  · rw [h1]; simp [and_assoc]
  · constructor
    · intro ht
      have h28 : 28 ≤ data.length := by
        rw [h1] at ht; simp at ht; exact ht.1.1
      have hm : min 28 data.length = 28 := by omega
      have hd : decide (data.length < 28) = false := by simp; omega
      rw [hm, hd] at h2
      exact Prod.ext ht h2
    · intro he; rw [he]

/-- C5: `writeWAVHeader` appends exactly the 44 bytes of the canonical layout:
`RIFF`, 36 + dataSize, `WAVE`, `fmt `, 16, 1, channels, sampleRate,
sampleRate * channels * (bitDepth/8), channels * (bitDepth/8), bitDepth,
`data`, dataSize, every number little-endian in its 4- or 2-byte field. -/
theorem writeWAVHeader_layout (file : List Nat) (sampleRate channels bitDepth dataSize : Int) :
    writeWAVHeader file sampleRate channels bitDepth dataSize
        = some (file ++ specHeader sampleRate channels bitDepth dataSize)
      ∧ (specHeader sampleRate channels bitDepth dataSize).length = 44
      ∧ ∀ b ∈ specHeader sampleRate channels bitDepth dataSize, b < 256 := by
  refine ⟨writeWAVHeader_eq _ _ _ _ _, specHeader_length _ _ _ _, ?_⟩
  have hle : ∀ (n : Nat) (x : Int), ∀ b ∈ leBytes n x, b < 256 := by
    intro n
    induction n with
    | zero => intro x b hb; simp [leBytes] at hb
    | succ n ih =>
      intro x b hb
      simp only [leBytes, List.mem_cons] at hb
      rcases hb with rfl | hb
      · omega
      · exact ih _ b hb
  intro b hb
  simp only [specHeader, List.mem_append] at hb
  rcases hb with (((((((((((hb | hb) | hb) | hb) | hb) | hb) | hb) | hb) | hb) | hb) | hb) | hb) | hb
  all_goals first
    | exact hle _ _ b hb
    | (simp at hb; omega)


/-- C6 (amended): for `bitDepth` 16, 24 or 32, when `sampleCount * (bitDepth/8)`
is below 2^31 and does not exceed the `2 * sampleCount` bytes of the buffer
(16 bits, or an empty buffer), `writeWAV` on a path that opens returns `true`
and leaves a file of 44 + sampleCount * (bitDepth/8) bytes that starts with
`RIFF`, has `WAVE` at offset 8 and declares sampleCount * (bitDepth/8) in its
data-size field, whatever memory follows the buffer. -/
theorem writeWAV_size_and_tags (w : World) (adjacent : List Nat) (filename : String)
    (pcmData : List Int) (sampleRate channels bitDepth : Int)
    (hbd : bitDepth = 16 ∨ bitDepth = 24 ∨ bitDepth = 32)
    (hsize : (pcmData.length : Int) * (bitDepth / 8) < 2147483648)
    (hin : (pcmData.length : Int) * (bitDepth / 8) ≤ 2 * (pcmData.length : Int))
    (hw : w.writable filename = true) :
    ∃ w' bytes,
      writeWAV w adjacent filename pcmData sampleRate channels bitDepth = some (true, w')
      ∧ w'.files filename = some bytes
      ∧ (bytes.length : Int) = 44 + (pcmData.length : Int) * (bitDepth / 8)
      ∧ bytes.take 4 = [0x52, 0x49, 0x46, 0x46]
      ∧ (bytes.drop 8).take 4 = [0x57, 0x41, 0x56, 0x45]
      ∧ (leDecode ((bytes.drop 40).take 4) : Int) = (pcmData.length : Int) * (bitDepth / 8) := by
  have hdiv : Int.tdiv bitDepth 8 = bitDepth / 8 := by
    rcases hbd with h | h | h <;> subst h <;> decide
  have hbps : 0 ≤ bitDepth / 8 := by
    rcases hbd with h | h | h <;> subst h <;> decide
  have hnn : 0 ≤ (pcmData.length : Int) * (bitDepth / 8) :=
    Int.mul_nonneg (Int.ofNat_nonneg _) hbps
  have hds : wrapInt ((pcmData.length : Int) * Int.tdiv bitDepth 8)
      = (pcmData.length : Int) * (bitDepth / 8) := by
    rw [hdiv]; unfold wrapInt; omega
  have hmem : ((pcmData.length : Int) * (bitDepth / 8)).toNat
      ≤ (pcmBytes pcmData ++ adjacent).length := by
    rw [List.length_append, pcmBytes_length]; omega
  have hwr := writeWAV_writable w adjacent filename pcmData sampleRate channels bitDepth hw
  rw [hds, ostreamWrite_within _ _ _ hnn hmem, Option.map_some'] at hwr
  refine ⟨_, _, hwr, World.store_files_self _ _ _, ?_, ?_, ?_, ?_⟩
  · rw [List.length_append, specHeader_length, List.length_take, Nat.min_eq_left hmem]
    push_cast
    rw [Int.toNat_of_nonneg hnn]
  · exact specHeader_take_riff _ _ _ _ _
  · exact specHeader_wave _ _ _ _ _
  · rw [specHeader_dataSize, leDecode_leBytes_four]
    omega

/-- Witness for C6: two samples written at 16 bits give a 48-byte file. -/
theorem writeWAV_size_and_tags_witness :
    ((16 : Int) = 16 ∨ (16 : Int) = 24 ∨ (16 : Int) = 32)
      ∧ (([32767, -32768] : List Int).length : Int) * (16 / 8) < 2147483648
      ∧ (([32767, -32768] : List Int).length : Int) * (16 / 8)
          ≤ 2 * (([32767, -32768] : List Int).length : Int)
      ∧ (worldWith []).writable "out.wav" = true
      ∧ ∃ w' bytes,
        writeWAV (worldWith []) [] "out.wav" [32767, -32768] 176400 2 16 = some (true, w')
        ∧ w'.files "out.wav" = some bytes
        ∧ (bytes.length : Int) = 44 + (([32767, -32768] : List Int).length : Int) * (16 / 8)
        ∧ bytes.take 4 = [0x52, 0x49, 0x46, 0x46]
        ∧ (bytes.drop 8).take 4 = [0x57, 0x41, 0x56, 0x45]
        ∧ (leDecode ((bytes.drop 40).take 4) : Int)
            = (([32767, -32768] : List Int).length : Int) * (16 / 8) :=
  ⟨Or.inl rfl, by decide, by decide, rfl,
    writeWAV_size_and_tags (worldWith []) [] "out.wav" [32767, -32768] 176400 2 16
      (Or.inl rfl) (by decide) (by decide) rfl⟩

/-- C6 (as stated, refuted), two runs of `writeWAV` that return `true`.  A buffer
of 2^31 samples at 16 bits has sampleCount * (bitDepth/8) = 2^32, yet the file
has 44 bytes and its data-size field holds 0.  A buffer of 4096 samples at 24
bits with no readable memory after it has sampleCount * (bitDepth/8) = 12288,
yet the file has 8280 bytes: the header, the 8192 bytes of the buffer and the
header once more. -/
theorem writeWAV_size_counterexample :
    (∃ w' bytes,
      writeWAV (worldWith []) [] "out.wav" (List.replicate 2147483648 0) 176400 2 16
          = some (true, w')
        ∧ w'.files "out.wav" = some bytes
        ∧ ((List.replicate 2147483648 (0 : Int)).length : Int) * (16 / 8) = 4294967296
        ∧ (bytes.length : Int)
            ≠ 44 + ((List.replicate 2147483648 (0 : Int)).length : Int) * (16 / 8)
        ∧ (leDecode ((bytes.drop 40).take 4) : Int)
            ≠ ((List.replicate 2147483648 (0 : Int)).length : Int) * (16 / 8))
      ∧ (∃ w' bytes,
        writeWAV (worldWith []) [] "out.wav" (List.replicate 4096 32767) 176400 2 24
            = some (true, w')
          ∧ w'.files "out.wav" = some bytes
          ∧ ((List.replicate 4096 (32767 : Int)).length : Int) * (24 / 8) = 12288
          ∧ bytes.length = 8280
          ∧ bytes = specHeader 176400 2 24 12288 ++ pcmBytes (List.replicate 4096 32767)
              ++ specHeader 176400 2 24 12288
          ∧ (bytes.length : Int)
              ≠ 44 + ((List.replicate 4096 (32767 : Int)).length : Int) * (24 / 8)) := by
  constructor
  · have hlen : ((List.replicate 2147483648 (0 : Int)).length : Int) = 2147483648 := by
      rw [List.length_replicate]; rfl
    have hds : wrapInt (((List.replicate 2147483648 (0 : Int)).length : Int) * Int.tdiv 16 8)
        = 0 := by
      rw [hlen]; decide
    refine ⟨World.store ((worldWith []).record (IOEvent.openOutput "out.wav" true)) "out.wav"
        (specHeader 176400 2 16 0), specHeader 176400 2 16 0, ?_, ?_, ?_, ?_, ?_⟩
    · rw [writeWAV_writable _ _ _ _ _ _ _ rfl, hds, ostreamWrite_nonpos _ _ _ (by decide)]
      rfl
    · exact World.store_files_self _ _ _
    · rw [hlen]; decide
    · rw [hlen, specHeader_length]; decide
    · have h := specHeader_dataSize 176400 2 16 0 []
      rw [List.append_nil] at h
      rw [h, leDecode_leBytes_four, hlen]; decide
  · have hlen : (List.replicate 4096 (32767 : Int)).length = 4096 := List.length_replicate _ _
    have hds : wrapInt (((List.replicate 4096 (32767 : Int)).length : Int) * Int.tdiv 24 8)
        = 12288 := by
      rw [hlen]; decide
    have hpl : (pcmBytes (List.replicate 4096 32767)).length = 8192 := by
      rw [pcmBytes_length, hlen]
    have hwr := writeWAV_writable (worldWith []) [] "out.wav" (List.replicate 4096 32767)
      176400 2 24 rfl
    rw [hds, List.append_nil,
      ostreamWrite_short _ _ _ (by rw [hpl]; decide) (by decide), Option.map_some'] at hwr
    refine ⟨_, _, hwr, World.store_files_self _ _ _, ?_, ?_, rfl, ?_⟩
    · rw [hlen]; decide
    · rw [List.length_append, List.length_append, specHeader_length, hpl]
    · rw [List.length_append, List.length_append, specHeader_length, hpl, hlen]; decide

/-- C7 (the code departs from the claim): converting a valid header plus one
block of 4096 bytes `0x01` at 24 bits succeeds, and the payload after the
44-byte header is 12288 bytes long: the 8192 bytes of the 4096 samples followed
by the 4096 bytes that lie after the buffer in memory (here `0xAA`). -/
theorem convert_payload_overread_24bit :
    ∃ w' bytes,
      convert (worldWith (sampleHeader ++ List.replicate 4096 1)) (List.replicate 4096 0xAA)
          "in.dsf" "out.wav" 24 176400 2 false = some (true, w')
        ∧ w'.files "out.wav" = some bytes
        ∧ bytes.drop 44 = pcmBytes (List.replicate 4096 32767) ++ List.replicate 4096 0xAA
        ∧ (bytes.drop 44).length = 12288
        ∧ (pcmBytes (List.replicate 4096 32767)).length = 8192 := by
  have hmap : (List.replicate 4096 1).map (fun b => decodeSample b false)
      = List.replicate 4096 32767 := by
    rw [List.map_replicate]; rfl
  have hpl : (pcmBytes (List.replicate 4096 32767)).length = 8192 := by
    rw [pcmBytes_length, List.length_replicate]
  have hconv := convert_one_block (worldWith (sampleHeader ++ List.replicate 4096 1))
    (List.replicate 4096 0xAA) "in.dsf" "out.wav" 24 176400 2 false sampleHeader
    (List.replicate 4096 1) (by decide) (worldWith_files _) (by decide) (by decide)
    (by decide) (List.length_replicate _ _) rfl
  have hds : wrapInt (4096 * Int.tdiv 24 8) = 12288 := by decide
  have hmem : (pcmBytes (List.replicate 4096 32767) ++ List.replicate 4096 0xAA).length
      = 12288 := by
    rw [List.length_append, hpl, List.length_replicate]
  rw [hmap, hds, ostreamWrite_inside _ _ _ (by decide) (by rw [hmem]; decide),
    List.take_of_length_le (by rw [hmem]; decide), Option.map_some'] at hconv
  refine ⟨_, _, hconv, World.store_files_self _ _ _, ?_, ?_, hpl⟩
  · exact List.drop_left' (specHeader_length _ _ _ _)
  · rw [List.drop_left' (specHeader_length _ _ _ _), hmem]

/-- C8: a valid 28-byte header followed by one block of alternating `0x01`,
`0x00`, converted at 176400 Hz, 2 channels, 16 bits without DoP to a writable
path, returns `true` and leaves a WAV file of 8236 bytes: the canonical header
for 8192 payload bytes, then 4096 little-endian samples `32767, -32768, ...`. -/
theorem convert_alternating_block (w : World) (adjacent : List Nat) (dsfFile wavFile : String)
    (hdr : List Nat) (hlen : hdr.length = 28)
    (hd : hdr.take 4 = [0x44, 0x53, 0x44, 0x20])
    (hf : (hdr.drop 12).take 4 = [0x66, 0x6D, 0x74, 0x20])
    (hfile : w.files dsfFile = some (hdr ++ alternatingBlock))
    (hw : w.writable wavFile = true) :
    ∃ w' bytes,
      convert w adjacent dsfFile wavFile 16 176400 2 false = some (true, w')
        ∧ w'.files wavFile = some bytes
        ∧ bytes.length = 44 + 4096 * 2
        ∧ bytes.take 44 = specHeader 176400 2 16 8192
        ∧ leSamples (bytes.drop 44) = alternatingSamples
        ∧ alternatingSamples.length = 4096
        ∧ ∀ i, i < 4096 →
            alternatingSamples[i]? = some (if i % 2 = 0 then 32767 else -32768) := by
  have hpl : (pcmBytes alternatingSamples).length = 8192 := by
    rw [pcmBytes_length, alternatingSamples_length]
  have hconv := convert_one_block w adjacent dsfFile wavFile 16 176400 2 false hdr
    alternatingBlock (by decide) hfile hlen hd hf alternatingBlock_length hw
  have hds : wrapInt (4096 * Int.tdiv 16 8) = 8192 := by decide
  rw [map_decodeSample_alternating, hds,
    ostreamWrite_inside _ _ _ (by decide) (by rw [List.length_append, hpl]; simp),
    List.take_append_of_le_length (by rw [hpl]; decide),
    List.take_of_length_le (by rw [hpl]; decide), Option.map_some'] at hconv
  refine ⟨_, _, hconv, World.store_files_self _ _ _, ?_, ?_, ?_, alternatingSamples_length, ?_⟩
  · rw [List.length_append, specHeader_length, hpl]
  · rw [List.take_left' (specHeader_length _ _ _ _)]
  · rw [List.drop_left' (specHeader_length _ _ _ _)]
    exact leSamples_pcmBytes _ alternatingSamples_range
  · intro i hi
    simp [alternatingSamples, List.getElem?_map, List.getElem?_range, hi]

/-- Witness for C8: the sample header, the file `in.dsf`, the output `out.wav`. -/
theorem convert_alternating_block_witness :
    sampleHeader.length = 28
      ∧ ∃ w' bytes,
        convert (worldWith (sampleHeader ++ alternatingBlock)) [] "in.dsf" "out.wav"
            16 176400 2 false = some (true, w')
          ∧ w'.files "out.wav" = some bytes
          ∧ bytes.length = 44 + 4096 * 2
          ∧ bytes.take 44 = specHeader 176400 2 16 8192
          ∧ leSamples (bytes.drop 44) = alternatingSamples
          ∧ alternatingSamples.length = 4096
          ∧ ∀ i, i < 4096 →
              alternatingSamples[i]? = some (if i % 2 = 0 then 32767 else -32768) :=
  ⟨by decide,
    convert_alternating_block (worldWith (sampleHeader ++ alternatingBlock)) [] "in.dsf"
      "out.wav" sampleHeader (by decide) (by decide) (by decide) (worldWith_files _) rfl⟩

/-- C9: for a triple outside the configuration table `convert` returns `false`
and the world is exactly as before: no file was opened, read or written,
whatever the input file and the DoP flag are. -/
theorem convert_invalid_config (w : World) (adjacent : List Nat) (dsfFile wavFile : String)
    (pcmBitWidth pcmSampleRate pcmChannels : Int) (useDoP : Bool)
    (h : (pcmSampleRate, pcmChannels, pcmBitWidth) ∉ specTable) :
    convert w adjacent dsfFile wavFile pcmBitWidth pcmSampleRate pcmChannels useDoP
      = some (false, w) := by
  have hv : isValidOutputConfig pcmSampleRate pcmChannels pcmBitWidth = false := by
    cases hc : isValidOutputConfig pcmSampleRate pcmChannels pcmBitWidth with
    | false => rfl
    | true => exact absurd ((isValid_iff _ _ _).1 hc) h
  simp [convert, hv]

/-- Witness for C9: the sample rate 999999 on a well-formed input. -/
theorem convert_invalid_config_witness :
    ((999999 : Int), (2 : Int), (16 : Int)) ∉ specTable
      ∧ convert (worldWith (sampleHeader ++ alternatingBlock)) [] "in.dsf" "out.wav"
          16 999999 2 false
        = some (false, worldWith (sampleHeader ++ alternatingBlock)) :=
  ⟨by decide,
    convert_invalid_config (worldWith (sampleHeader ++ alternatingBlock)) [] "in.dsf" "out.wav"
      16 999999 2 false (by decide)⟩

/-- C10: for a configuration of the table and an input file that opens but is
shorter than 28 bytes or lacks `"DSD "` at 0 or `"fmt "` at 12, `convert`
returns `false`; files are untouched and the only I/O is the opening of the
input and one read of 28 bytes: no block read, no opening of the output. -/
theorem convert_malformed_header (w : World) (adjacent : List Nat) (dsfFile wavFile : String)
    (pcmBitWidth pcmSampleRate pcmChannels : Int) (useDoP : Bool) (content : List Nat)
    (hv : (pcmSampleRate, pcmChannels, pcmBitWidth) ∈ specTable)
    (hfile : w.files dsfFile = some content)
    (hbad : content.length < 28 ∨ content.take 4 ≠ [0x44, 0x53, 0x44, 0x20]
      ∨ (content.drop 12).take 4 ≠ [0x66, 0x6D, 0x74, 0x20]) :
    convert w adjacent dsfFile wavFile pcmBitWidth pcmSampleRate pcmChannels useDoP
      = some (false, { w with log := w.log ++ [IOEvent.openInput dsfFile true,
          IOEvent.readInput 28 (min 28 content.length)] }) := by
  have hval := (isValid_iff _ _ _).2 hv
  apply convert_header_bad w adjacent dsfFile wavFile _ _ _ useDoP content hval hfile
  rw [readDSFHeader_fst]
  rcases hbad with h | h | h
  · have : ¬ 28 ≤ content.length := by omega
    simp [this]
  · simp [h]
  · simp [h]

/-- Witness for C10: an input file of one byte. -/
theorem convert_malformed_header_witness :
    ((176400 : Int), (2 : Int), (16 : Int)) ∈ specTable
      ∧ convert (worldWith [0x44]) [] "in.dsf" "out.wav" 16 176400 2 false
        = some (false, { worldWith [0x44] with log := (worldWith [0x44]).log
            ++ [IOEvent.openInput "in.dsf" true, IOEvent.readInput 28 (min 28 [0x44].length)] }) :=
  ⟨by decide,
    convert_malformed_header (worldWith [0x44]) [] "in.dsf" "out.wav" 16 176400 2 false [0x44]
      (by decide) (worldWith_files _) (Or.inl (by decide))⟩

/-- C11: with DoP every sample the decoder emits has all bits of the marker
0x05FA set in its 16-bit pattern, and applying the marker again (as a 16-bit
OR, or as the source's `int` OR narrowed to 16 bits) gives the same sample. -/
theorem decodeDSDToPCM_dop_marker_set (w : World) (s : IFStream) (pcm : List Int) (i : Nat)
    (h : pcm.length + i < (decodeDSDToPCM w s pcm true).2.2.length) :
    ∃ x, (decodeDSDToPCM w s pcm true).2.2[pcm.length + i]? = some x
      ∧ (x % 65536).toNat &&& 0x05FA = 0x05FA
      ∧ orMarker16 x = x
      ∧ wrapInt16 (intOr x 0x05FA) = x := by
  obtain ⟨b, _, hx⟩ := decodeDSDToPCM_getElem w s pcm true i h
  refine ⟨decodeSample b true, hx, ?_⟩
  rw [decodeSample_dop]
  by_cases hb : b % 2 = 1 <;> simp only [hb, if_true, if_false] <;> decide

/-- Witness for C11: the first sample of a block of 4096 bytes `0x00`. -/
theorem decodeDSDToPCM_dop_marker_set_witness :
    ([] : List Int).length + 0
        < (decodeDSDToPCM (worldWith []) ⟨List.replicate 4096 0, 0, false⟩ [] true).2.2.length
      ∧ ∃ x, (decodeDSDToPCM (worldWith []) ⟨List.replicate 4096 0, 0, false⟩ [] true).2.2[
            ([] : List Int).length + 0]? = some x
        ∧ (x % 65536).toNat &&& 0x05FA = 0x05FA
        ∧ orMarker16 x = x
        ∧ wrapInt16 (intOr x 0x05FA) = x :=
  ⟨one_block_nonempty _ _ (List.length_replicate _ _) true,
    decodeDSDToPCM_dop_marker_set (worldWith []) ⟨List.replicate 4096 0, 0, false⟩ [] 0
      (one_block_nonempty _ _ (List.length_replicate _ _) true)⟩

/-- C12: the nested loops of the usage text enumerate exactly the seventeen
triples of the specification table, in its order (the map's keys ascend in the
order listed), and the enumerated triples are exactly those that
`isValidOutputConfig` accepts. -/
theorem usageTriples_eq_table (sampleRate channels bitDepth : Int) :
    usageTriples = specTable
      ∧ usageTriples.length = 17
      ∧ (validConfigurations.map Prod.fst).Pairwise (fun a b => a < b)
      ∧ ((sampleRate, channels, bitDepth) ∈ usageTriples
          ↔ isValidOutputConfig sampleRate channels bitDepth = true) := by
  have he : usageTriples = specTable := by decide
  refine ⟨he, by decide, by decide, ?_⟩
  rw [he]
  exact (isValid_iff sampleRate channels bitDepth).symm


/-- C14: `convert` always returns, and it returns `true` exactly when the triple
is in the configuration table, the input file opens, `readDSFHeader` succeeds
on it and the output file opens; nothing after the header has a say.  The
checks come in that order: a failing check returns `false` with the I/O history
ending at that step. -/
theorem convert_true_iff (w : World) (adjacent : List Nat) (dsfFile wavFile : String)
    (pcmBitWidth pcmSampleRate pcmChannels : Int) (useDoP : Bool) :
    ((∃ w', convert w adjacent dsfFile wavFile pcmBitWidth pcmSampleRate pcmChannels useDoP
          = some (true, w'))
        ↔ (pcmSampleRate, pcmChannels, pcmBitWidth) ∈ specTable
          ∧ (∃ content, w.files dsfFile = some content
              ∧ (readDSFHeader (w.record (IOEvent.openInput dsfFile true))
                  ⟨content, 0, false⟩).1 = true)
          ∧ w.writable wavFile = true)
      ∧ (∃ b w', convert w adjacent dsfFile wavFile pcmBitWidth pcmSampleRate pcmChannels
          useDoP = some (b, w'))
      ∧ ((pcmSampleRate, pcmChannels, pcmBitWidth) ∉ specTable →
          convert w adjacent dsfFile wavFile pcmBitWidth pcmSampleRate pcmChannels useDoP
            = some (false, w))
      ∧ ((pcmSampleRate, pcmChannels, pcmBitWidth) ∈ specTable → w.files dsfFile = none →
          convert w adjacent dsfFile wavFile pcmBitWidth pcmSampleRate pcmChannels useDoP
            = some (false, w.record (IOEvent.openInput dsfFile false)))
      ∧ (∀ content, (pcmSampleRate, pcmChannels, pcmBitWidth) ∈ specTable →
          w.files dsfFile = some content →
          (readDSFHeader (w.record (IOEvent.openInput dsfFile true)) ⟨content, 0, false⟩).1
            = false →
          convert w adjacent dsfFile wavFile pcmBitWidth pcmSampleRate pcmChannels useDoP
            = some (false, { w with log := w.log ++ [IOEvent.openInput dsfFile true,
                IOEvent.readInput 28 (min 28 content.length)] }))
      ∧ (∀ content, (pcmSampleRate, pcmChannels, pcmBitWidth) ∈ specTable →
          w.files dsfFile = some content →
          (readDSFHeader (w.record (IOEvent.openInput dsfFile true)) ⟨content, 0, false⟩).1
            = true →
          w.writable wavFile = false →
          convert w adjacent dsfFile wavFile pcmBitWidth pcmSampleRate pcmChannels useDoP
            = some (false,
                { w with log := w.log ++ [IOEvent.openInput dsfFile true, IOEvent.readInput 28 28]
                          ++ List.replicate ((content.length - 28) / 4096)
                              (IOEvent.readInput 4096 4096)
                          ++ [IOEvent.readInput 4096 ((content.length - 28) % 4096)]
                          ++ [IOEvent.openOutput wavFile false] })) := by
  have hvalid := isValid_iff pcmSampleRate pcmChannels pcmBitWidth
  have hnot : (pcmSampleRate, pcmChannels, pcmBitWidth) ∉ specTable →
      isValidOutputConfig pcmSampleRate pcmChannels pcmBitWidth = false := by
    intro h
    cases hc : isValidOutputConfig pcmSampleRate pcmChannels pcmBitWidth with
    | false => rfl
    | true => exact absurd (hvalid.1 hc) h
  have c1 : (pcmSampleRate, pcmChannels, pcmBitWidth) ∉ specTable →
      convert w adjacent dsfFile wavFile pcmBitWidth pcmSampleRate pcmChannels useDoP
        = some (false, w) :=
    fun h => convert_not_valid _ _ _ _ _ _ _ _ (hnot h)
  have c2 : (pcmSampleRate, pcmChannels, pcmBitWidth) ∈ specTable → w.files dsfFile = none →
      convert w adjacent dsfFile wavFile pcmBitWidth pcmSampleRate pcmChannels useDoP
        = some (false, w.record (IOEvent.openInput dsfFile false)) :=
    fun h hf => convert_no_file _ _ _ _ _ _ _ _ (hvalid.2 h) hf
  have c3 := fun content (h : (pcmSampleRate, pcmChannels, pcmBitWidth) ∈ specTable)
      (hf : w.files dsfFile = some content)
      (hh : (readDSFHeader (w.record (IOEvent.openInput dsfFile true))
        ⟨content, 0, false⟩).1 = false) =>
    convert_header_bad w adjacent dsfFile wavFile pcmBitWidth pcmSampleRate pcmChannels useDoP
      content (hvalid.2 h) hf hh
  have c4 := fun content (h : (pcmSampleRate, pcmChannels, pcmBitWidth) ∈ specTable)
      (hf : w.files dsfFile = some content)
      (hh : (readDSFHeader (w.record (IOEvent.openInput dsfFile true))
        ⟨content, 0, false⟩).1 = true) (hw : w.writable wavFile = false) =>
    convert_unwritable w adjacent dsfFile wavFile pcmBitWidth pcmSampleRate pcmChannels useDoP
      content (hvalid.2 h) hf hh hw
  have c5 := fun content (h : (pcmSampleRate, pcmChannels, pcmBitWidth) ∈ specTable)
      (hf : w.files dsfFile = some content)
      (hh : (readDSFHeader (w.record (IOEvent.openInput dsfFile true))
        ⟨content, 0, false⟩).1 = true) (hw : w.writable wavFile = true) =>
    convert_of_conditions w adjacent dsfFile wavFile pcmBitWidth pcmSampleRate pcmChannels
      useDoP content (hvalid.2 h) hf hh hw
  refine ⟨⟨?_, ?_⟩, ?_, c1, c2, c3, c4⟩
  · rintro ⟨w', hc⟩
    by_cases hm : (pcmSampleRate, pcmChannels, pcmBitWidth) ∈ specTable
    · cases hf : w.files dsfFile with
      | none => rw [c2 hm hf] at hc; simp at hc
      | some content =>
        cases hh : (readDSFHeader (w.record (IOEvent.openInput dsfFile true))
            ⟨content, 0, false⟩).1 with
        | false => rw [c3 content hm hf hh] at hc; simp at hc
        | true =>
          cases hw : w.writable wavFile with
          | false => rw [c4 content hm hf hh hw] at hc; simp at hc
          | true => exact ⟨hm, ⟨content, rfl, hh⟩, rfl⟩
    · rw [c1 hm] at hc; simp at hc
  · rintro ⟨hm, ⟨content, hf, hh⟩, hw⟩
    exact c5 content hm hf hh hw
  · by_cases hm : (pcmSampleRate, pcmChannels, pcmBitWidth) ∈ specTable
    · cases hf : w.files dsfFile with
      | none => exact ⟨_, _, c2 hm hf⟩
      | some content =>
        cases hh : (readDSFHeader (w.record (IOEvent.openInput dsfFile true))
            ⟨content, 0, false⟩).1 with
        | false => exact ⟨_, _, c3 content hm hf hh⟩
        | true =>
          cases hw : w.writable wavFile with
          | false => exact ⟨_, _, c4 content hm hf hh hw⟩
          | true =>
            obtain ⟨w', hc⟩ := c5 content hm hf hh hw
            exact ⟨_, _, hc⟩
    · exact ⟨_, _, c1 hm⟩

/-- C15: for every stream the DoP output is the plain output with the marker
applied sample by sample (the 16-bit value `s | 0x05FA`), and both outputs have
the same length. -/
theorem decodeDSDToPCM_dop_pointwise (w : World) (s : IFStream) (pcm : List Int) :
    (decodeDSDToPCM w s pcm true).2.2.length = (decodeDSDToPCM w s pcm false).2.2.length
      ∧ (decodeDSDToPCM w s pcm true).2.2
          = pcm ++ (((decodeDSDToPCM w s pcm false).2.2).drop pcm.length).map orMarker16
      ∧ (decodeDSDToPCM w s [] true).2.2
          = ((decodeDSDToPCM w s [] false).2.2).map orMarker16 := by
  have hmap : ∀ l : List Nat, l.map (fun b => decodeSample b true)
      = (l.map (fun b => decodeSample b false)).map orMarker16 := by
    intro l
    rw [List.map_map]
    apply List.map_congr_left
    intro b _
    exact decodeSample_orMarker b
  refine ⟨decodeDSDToPCM_length_dop w s pcm true false, ?_, ?_⟩
  · rw [decodeDSDToPCM_pcm, decodeDSDToPCM_pcm, List.drop_left, hmap]
  · rw [decodeDSDToPCM_pcm, decodeDSDToPCM_pcm, List.nil_append, List.nil_append, hmap]

/-- C16: every triple that `isValidOutputConfig` accepts has a bit depth of 16,
24 or 32 (a multiple of 8 whose eighth is 2, 3 or 4), 2, 6 or 8 channels and a
strictly positive sample rate. -/
theorem isValidOutputConfig_invariant (sampleRate channels bitDepth : Int)
    (h : isValidOutputConfig sampleRate channels bitDepth = true) :
    (bitDepth = 16 ∨ bitDepth = 24 ∨ bitDepth = 32)
      ∧ bitDepth % 8 = 0
      ∧ 8 * Int.tdiv bitDepth 8 = bitDepth
      ∧ (Int.tdiv bitDepth 8 = 2 ∨ Int.tdiv bitDepth 8 = 3 ∨ Int.tdiv bitDepth 8 = 4)
      ∧ (channels = 2 ∨ channels = 6 ∨ channels = 8)
      ∧ 0 < sampleRate := by
  have hm := (isValid_iff sampleRate channels bitDepth).1 h
  obtain ⟨h1, h2, h3, _, h5, h6, h7⟩ := specTable_rows _ hm
  exact ⟨h1, h2, h3, h5, h6, h7⟩

/-- Witness for C16: the row 176400 Hz, 8 channels, 24 bits. -/
theorem isValidOutputConfig_invariant_witness :
    isValidOutputConfig 176400 8 24 = true
      ∧ ((24 : Int) = 16 ∨ (24 : Int) = 24 ∨ (24 : Int) = 32)
      ∧ (24 : Int) % 8 = 0
      ∧ 8 * Int.tdiv 24 8 = 24
      ∧ (Int.tdiv 24 8 = 2 ∨ Int.tdiv 24 8 = 3 ∨ Int.tdiv 24 8 = 4)
      ∧ ((8 : Int) = 2 ∨ (8 : Int) = 6 ∨ (8 : Int) = 8)
      ∧ (0 : Int) < 176400 :=
  ⟨by decide, isValidOutputConfig_invariant 176400 8 24 (by decide)⟩

/-- C17: on a good stream with `n` bytes after the cursor the decoder appends
the samples of the first `4096 * (n / 4096)` of them and nothing else: the
number of new samples is that multiple of 4096, a trailing block shorter than
4096 bytes adds none, fewer than 4096 bytes leave the buffer as it was, and
the loop ends on the read that comes back short. -/
theorem decodeDSDToPCM_whole_blocks (w : World) (data : List Nat) (pos : Nat)
    (pcm : List Int) (useDoP : Bool) :
    (decodeDSDToPCM w ⟨data, pos, false⟩ pcm useDoP).2.2
        = pcm ++ ((data.drop pos).take (4096 * ((data.length - pos) / 4096))).map
            (fun b => decodeSample b useDoP)
      ∧ (decodeDSDToPCM w ⟨data, pos, false⟩ pcm useDoP).2.2.length
        = pcm.length + 4096 * ((data.length - pos) / 4096)
      ∧ (data.length - pos < 4096 →
          (decodeDSDToPCM w ⟨data, pos, false⟩ pcm useDoP).2.2 = pcm)
      ∧ (decodeDSDToPCM w ⟨data, pos, false⟩ pcm useDoP).2.1.fail = true
      ∧ (decodeDSDToPCM w ⟨data, pos, false⟩ pcm useDoP).1.log
        = w.log ++ List.replicate ((data.length - pos) / 4096) (IOEvent.readInput 4096 4096)
            ++ [IOEvent.readInput 4096 ((data.length - pos) % 4096)] := by
  rw [decodeDSDToPCM_eq]
  refine ⟨rfl, ?_, ?_, rfl, rfl⟩
  · simp only [List.length_append, List.length_map, List.length_take, List.length_drop]
    have : 4096 * ((data.length - pos) / 4096) ≤ data.length - pos :=
      Nat.mul_div_le _ _
    omega
  · intro hlt
    have hk : (data.length - pos) / 4096 = 0 := by omega
    simp [hk]

/-- C18 (amended): when `sampleCount * (bitDepth/8)` fits the 32-bit `dataSize`,
the byte count that `writeWAV` passes to the payload write is that product; it
stays within the `2 * sampleCount` bytes of the buffer exactly when the buffer
is empty or `bitDepth/8 <= 2`.  At 16 bits it is in bounds, at 24 and 32 bits
it exceeds the buffer by `sampleCount` and `2 * sampleCount` bytes; among table
configurations only 16 bits is in bounds for every such buffer. -/
theorem writeWAV_payload_request_bounds (w : World) (adjacent : List Nat) (filename : String)
    (pcmData : List Int) (sampleRate channels bitDepth : Int) (hw : w.writable filename = true)
    (hlo : -2147483648 ≤ (pcmData.length : Int) * Int.tdiv bitDepth 8)
    (hhi : (pcmData.length : Int) * Int.tdiv bitDepth 8 < 2147483648) :
    writeWAVDataSize pcmData bitDepth = (pcmData.length : Int) * Int.tdiv bitDepth 8
      ∧ (pcmBytes pcmData).length = 2 * pcmData.length
      ∧ (writeWAVDataSize pcmData bitDepth ≤ ((pcmBytes pcmData).length : Int)
          ↔ pcmData.length = 0 ∨ Int.tdiv bitDepth 8 ≤ 2)
      ∧ writeWAV w adjacent filename pcmData sampleRate channels bitDepth
          = (ostreamWrite
              (specHeader sampleRate channels bitDepth (writeWAVDataSize pcmData bitDepth))
              (pcmBytes pcmData ++ adjacent) (writeWAVDataSize pcmData bitDepth)).map
            (fun file =>
              (true, (w.record (IOEvent.openOutput filename true)).store filename file))
      ∧ (bitDepth = 16 →
          writeWAVDataSize pcmData bitDepth ≤ ((pcmBytes pcmData).length : Int))
      ∧ (bitDepth = 24 →
          writeWAVDataSize pcmData bitDepth
            = ((pcmBytes pcmData).length : Int) + (pcmData.length : Int))
      ∧ (bitDepth = 32 →
          writeWAVDataSize pcmData bitDepth
            = ((pcmBytes pcmData).length : Int) + 2 * (pcmData.length : Int))
      ∧ (isValidOutputConfig sampleRate channels bitDepth = true →
          ((∀ p : List Int, (p.length : Int) * Int.tdiv bitDepth 8 < 2147483648 →
              writeWAVDataSize p bitDepth ≤ ((pcmBytes p).length : Int))
            ↔ bitDepth = 16)) := by
  have hds : writeWAVDataSize pcmData bitDepth = (pcmData.length : Int) * Int.tdiv bitDepth 8 := by
    unfold writeWAVDataSize wrapInt; omega
  have hlenb := pcmBytes_length pcmData
  have hiff : writeWAVDataSize pcmData bitDepth ≤ ((pcmBytes pcmData).length : Int)
      ↔ pcmData.length = 0 ∨ Int.tdiv bitDepth 8 ≤ 2 := by
    rw [hds, hlenb]
    push_cast
    rw [mul_le_two_mul_iff _ _ (Int.ofNat_nonneg _)]
    constructor
    · rintro (h | h)
      · left; exact_mod_cast h
      · right; exact h
    · rintro (h | h)
      · left; exact_mod_cast h
      · right; exact h
  refine ⟨hds, hlenb, hiff, ?_, ?_, ?_, ?_, ?_⟩
  · exact writeWAV_writable _ _ _ _ _ _ _ hw
  · intro hb; subst hb
    rw [hds, hlenb]
    have : Int.tdiv 16 8 = 2 := by decide
    rw [this]; push_cast; omega
  · intro hb; subst hb
    rw [hds, hlenb]
    have : Int.tdiv 24 8 = 3 := by decide
    rw [this]; push_cast; omega
  · intro hb; subst hb
    rw [hds, hlenb]
    have : Int.tdiv 32 8 = 4 := by decide
    rw [this]; push_cast; omega
  · intro hv
    have hm := (isValid_iff sampleRate channels bitDepth).1 hv
    have hbd : bitDepth = 16 ∨ bitDepth = 24 ∨ bitDepth = 32 := by
      simp only [specTable, List.mem_cons, Prod.mk.injEq, List.mem_nil_iff, or_false] at hm
      omega
    constructor
    · intro hall
      have h1 := hall [0]
      rcases hbd with h | h | h
      · exact h
      · subst h
        exact absurd (h1 (by decide)) (by decide)
      · subst h
        exact absurd (h1 (by decide)) (by decide)
    · intro h16 p hp
      subst h16
      have e : Int.tdiv 16 8 = 2 := by decide
      rw [e] at hp
      unfold writeWAVDataSize wrapInt
      rw [e, pcmBytes_length]
      push_cast
      omega

/-- Witness for C18: one sample written at 24 bits. -/
theorem writeWAV_payload_request_bounds_witness :
    (worldWith []).writable "out.wav" = true
      ∧ writeWAVDataSize [32767] 24 = (([32767] : List Int).length : Int) * Int.tdiv 24 8
      ∧ (pcmBytes [32767]).length = 2 * ([32767] : List Int).length
      ∧ (writeWAVDataSize [32767] 24 ≤ ((pcmBytes [32767]).length : Int)
          ↔ ([32767] : List Int).length = 0 ∨ Int.tdiv 24 8 ≤ 2)
      ∧ writeWAV (worldWith []) [0xAA] "out.wav" [32767] 176400 2 24
          = (ostreamWrite (specHeader 176400 2 24 (writeWAVDataSize [32767] 24))
              (pcmBytes [32767] ++ [0xAA]) (writeWAVDataSize [32767] 24)).map
            (fun file =>
              (true, ((worldWith []).record (IOEvent.openOutput "out.wav" true)).store
                "out.wav" file))
      ∧ ((24 : Int) = 16 →
          writeWAVDataSize [32767] 24 ≤ ((pcmBytes [32767]).length : Int))
      ∧ ((24 : Int) = 24 →
          writeWAVDataSize [32767] 24
            = ((pcmBytes [32767]).length : Int) + (([32767] : List Int).length : Int))
      ∧ ((24 : Int) = 32 →
          writeWAVDataSize [32767] 24
            = ((pcmBytes [32767]).length : Int) + 2 * (([32767] : List Int).length : Int))
      ∧ (isValidOutputConfig 176400 2 24 = true →
          ((∀ p : List Int, (p.length : Int) * Int.tdiv 24 8 < 2147483648 →
              writeWAVDataSize p 24 ≤ ((pcmBytes p).length : Int))
            ↔ (24 : Int) = 16)) :=
  ⟨rfl, writeWAV_payload_request_bounds (worldWith []) [0xAA] "out.wav" [32767] 176400 2 24 rfl
    (by decide) (by decide)⟩

/-- C18 (as stated, refuted): for a buffer of 2^30 samples at 24 bits the product
3 * 2^30 does not fit `int`; the count passed to the write is -2^30, which is
within the buffer although the buffer is not empty and `bitDepth/8` is 3. -/
theorem writeWAV_payload_request_counterexample :
    writeWAVDataSize (List.replicate 1073741824 0) 24 = -1073741824
      ∧ writeWAVDataSize (List.replicate 1073741824 0) 24
          ≤ ((pcmBytes (List.replicate 1073741824 0)).length : Int)
      ∧ ¬ ((List.replicate 1073741824 (0 : Int)).length = 0 ∨ Int.tdiv 24 8 ≤ 2)
      ∧ writeWAVDataSize (List.replicate 1073741824 0) 24
          ≠ ((List.replicate 1073741824 (0 : Int)).length : Int) * Int.tdiv 24 8 := by
  have hlen : (List.replicate 1073741824 (0 : Int)).length = 1073741824 :=
    List.length_replicate _ _
  have hds : writeWAVDataSize (List.replicate 1073741824 0) 24 = -1073741824 := by
    unfold writeWAVDataSize
    rw [hlen]; decide
  refine ⟨hds, ?_, ?_, ?_⟩
  · rw [hds, pcmBytes_length, hlen]; decide
  · rw [hlen]; decide
  · rw [hds, hlen]; decide

/-- C19: for a configuration of the table and `0 <= dataSize <= 2^31 - 37` no
header field overflows or is cut: the `int` values of byteRate (at most
50803200) and chunkSize are the exact products and sums, channels, blockAlign
and bitDepth are below 65536, and the little-endian fields of the 44 bytes
read back as chunkSize, channels, sampleRate, byteRate = sampleRate *
blockAlign, blockAlign = channels * (bitDepth/8), bitDepth and dataSize. -/
theorem writeWAVHeader_fields_roundtrip (sampleRate channels bitDepth dataSize : Int)
    (hv : isValidOutputConfig sampleRate channels bitDepth = true)
    (h0 : 0 ≤ dataSize) (h1 : dataSize ≤ 2147483611) :
    ∃ hdr, writeWAVHeader [] sampleRate channels bitDepth dataSize = some hdr
      ∧ hdr.length = 44
      ∧ wrapInt (wrapInt (sampleRate * channels) * Int.tdiv bitDepth 8)
          = sampleRate * channels * (bitDepth / 8)
      ∧ 0 < sampleRate * channels * (bitDepth / 8)
      ∧ sampleRate * channels * (bitDepth / 8) ≤ 50803200
      ∧ wrapInt (36 + dataSize) = 36 + dataSize
      ∧ 36 + dataSize ≤ 2147483647
      ∧ wrapInt (channels * Int.tdiv bitDepth 8) = channels * (bitDepth / 8)
      ∧ (0 ≤ channels ∧ channels < 65536)
      ∧ (0 ≤ channels * (bitDepth / 8) ∧ channels * (bitDepth / 8) < 65536)
      ∧ (0 ≤ bitDepth ∧ bitDepth < 65536)
      ∧ (leDecode ((hdr.drop 4).take 4) : Int) = 36 + dataSize
      ∧ (leDecode ((hdr.drop 22).take 2) : Int) = channels
      ∧ (leDecode ((hdr.drop 24).take 4) : Int) = sampleRate
      ∧ (leDecode ((hdr.drop 28).take 4) : Int) = sampleRate * (channels * (bitDepth / 8))
      ∧ (leDecode ((hdr.drop 32).take 2) : Int) = channels * (bitDepth / 8)
      ∧ (leDecode ((hdr.drop 34).take 2) : Int) = bitDepth
      ∧ (leDecode ((hdr.drop 40).take 4) : Int) = dataSize := by
  have hm := (isValid_iff sampleRate channels bitDepth).1 hv
  have hw := writeWAVHeader_eq [] sampleRate channels bitDepth dataSize
  rw [List.nil_append] at hw
  obtain ⟨s1, s2, s3, s4, s5, s6, s7⟩ := specHeader_slices sampleRate channels bitDepth dataSize
  refine ⟨specHeader sampleRate channels bitDepth dataSize, hw, specHeader_length _ _ _ _, ?_⟩
  rw [s1, s2, s3, s4, s5, s6, s7]
  simp only [leDecode_leBytes_four, leDecode_leBytes_two]
  have hchunk : wrapInt (36 + dataSize) = 36 + dataSize := by unfold wrapInt; omega
  have hd1 : (((36 + dataSize) % 4294967296).toNat : Int) = 36 + dataSize := by omega
  have hd2 : ((dataSize % 4294967296).toNat : Int) = dataSize := by omega
  rw [hchunk, hd1, hd2]
  obtain ⟨f1, f2, f3, f4, f5, f6, f7, f8, f9, f10, f11, f12⟩ := specTable_fields _ hm
  simp only at f1 f2 f3 f4 f5 f6 f7 f8 f9 f10 f11 f12
  exact ⟨f1, f2, f3, rfl, by omega, f4, f5, f6, f7, rfl, f8, f9, f10, f11, f12, rfl⟩

/-- Witness for C19: the row 2822400 Hz, 6 channels, 24 bits with the largest
data size allowed. -/
theorem writeWAVHeader_fields_roundtrip_witness :
    isValidOutputConfig 2822400 6 24 = true
      ∧ (0 : Int) ≤ 2147483611 ∧ (2147483611 : Int) ≤ 2147483611 ∧
    ∃ hdr, writeWAVHeader [] (2822400 : Int) (6 : Int) (24 : Int) (2147483611 : Int) = some hdr
      ∧ hdr.length = 44
      ∧ wrapInt (wrapInt ((2822400 : Int) * (6 : Int)) * Int.tdiv (24 : Int) 8)
          = (2822400 : Int) * (6 : Int) * ((24 : Int) / 8)
      ∧ 0 < (2822400 : Int) * (6 : Int) * ((24 : Int) / 8)
      ∧ (2822400 : Int) * (6 : Int) * ((24 : Int) / 8) ≤ 50803200
      ∧ wrapInt (36 + (2147483611 : Int)) = 36 + (2147483611 : Int)
      ∧ 36 + (2147483611 : Int) ≤ 2147483647
      ∧ wrapInt ((6 : Int) * Int.tdiv (24 : Int) 8) = (6 : Int) * ((24 : Int) / 8)
      ∧ (0 ≤ (6 : Int) ∧ (6 : Int) < 65536)
      ∧ (0 ≤ (6 : Int) * ((24 : Int) / 8) ∧ (6 : Int) * ((24 : Int) / 8) < 65536)
      ∧ (0 ≤ (24 : Int) ∧ (24 : Int) < 65536)
      ∧ (leDecode ((hdr.drop 4).take 4) : Int) = 36 + (2147483611 : Int)
      ∧ (leDecode ((hdr.drop 22).take 2) : Int) = (6 : Int)
      ∧ (leDecode ((hdr.drop 24).take 4) : Int) = (2822400 : Int)
      ∧ (leDecode ((hdr.drop 28).take 4) : Int) = (2822400 : Int) * ((6 : Int) * ((24 : Int) / 8))
      ∧ (leDecode ((hdr.drop 32).take 2) : Int) = (6 : Int) * ((24 : Int) / 8)
      ∧ (leDecode ((hdr.drop 34).take 2) : Int) = (24 : Int)
      ∧ (leDecode ((hdr.drop 40).take 4) : Int) = (2147483611 : Int) :=
  ⟨by decide, by decide, by decide,
    writeWAVHeader_fields_roundtrip 2822400 6 24 2147483611 (by decide) (by decide) (by decide)⟩

/-- C20: with DoP the sample at position `i` comes from the byte at cursor + `i`
and is 32767 when that byte's low bit is 1 (the same as the plain sample) and
-31238, pattern 0x85FA, when it is 0; so the sample is 32767 exactly when the
low bit is 1. -/
theorem decodeDSDToPCM_dop_two_values (w : World) (s : IFStream) (pcm : List Int) (i : Nat)
    (h : pcm.length + i < (decodeDSDToPCM w s pcm true).2.2.length) :
    ∃ b x, s.data[s.pos + i]? = some b
      ∧ (decodeDSDToPCM w s pcm true).2.2[pcm.length + i]? = some x
      ∧ x = (if b &&& 1 = 1 then 32767 else -31238)
      ∧ (x = 32767 ↔ b &&& 1 = 1)
      ∧ (x = -31238 ↔ b &&& 1 = 0)
      ∧ (b &&& 1 = 1 →
          (decodeDSDToPCM w s pcm false).2.2[pcm.length + i]? = some x)
      ∧ ((-31238 : Int) % 65536).toNat = 0x85FA := by
  obtain ⟨b, hb, hx⟩ := decodeDSDToPCM_getElem w s pcm true i h
  have h' : pcm.length + i < (decodeDSDToPCM w s pcm false).2.2.length := by
    rw [decodeDSDToPCM_length_dop w s pcm false true]; exact h
  obtain ⟨b', hb', hy⟩ := decodeDSDToPCM_getElem w s pcm false i h'
  have hbb : b' = b := by rw [hb] at hb'; exact (Option.some.inj hb').symm
  subst hbb
  have hand := Nat.and_one_is_mod b'
  have h2 : b' % 2 = 0 ∨ b' % 2 = 1 := by omega
  refine ⟨b', decodeSample b' true, hb, hx, ?_, ?_, ?_, ?_, by decide⟩
  · rw [decodeSample_dop, hand]
  · rw [decodeSample_dop, hand]
    rcases h2 with h2 | h2 <;> simp [h2]
  · rw [decodeSample_dop, hand]
    rcases h2 with h2 | h2 <;> simp [h2]
  · intro h1
    rw [hy, decodeSample_dop, decodeSample_plain]
    rw [hand] at h1
    simp [h1]

/-- Witness for C20: the first sample of a block of 4096 bytes `0x00`. -/
theorem decodeDSDToPCM_dop_two_values_witness :
    ([] : List Int).length + 0
        < (decodeDSDToPCM (worldWith []) ⟨List.replicate 4096 0, 0, false⟩ [] true).2.2.length
      ∧ ∃ b x, (List.replicate 4096 0)[0 + 0]? = some b
      ∧ (decodeDSDToPCM (worldWith []) ⟨List.replicate 4096 0, 0, false⟩ [] true).2.2[
          ([] : List Int).length + 0]? = some x
      ∧ x = (if b &&& 1 = 1 then 32767 else -31238)
      ∧ (x = 32767 ↔ b &&& 1 = 1)
      ∧ (x = -31238 ↔ b &&& 1 = 0)
      ∧ (b &&& 1 = 1 →
          (decodeDSDToPCM (worldWith []) ⟨List.replicate 4096 0, 0, false⟩ [] false).2.2[
            ([] : List Int).length + 0]? = some x)
      ∧ ((-31238 : Int) % 65536).toNat = 0x85FA :=
  ⟨one_block_nonempty _ _ (List.length_replicate _ _) true,
    decodeDSDToPCM_dop_two_values (worldWith []) ⟨List.replicate 4096 0, 0, false⟩ [] 0
      (one_block_nonempty _ _ (List.length_replicate _ _) true)⟩

end DSDConverter
